import Mathlib

/-!
Static and dynamic N-dimensional arrays of matrixcpp: a shallow embedding of
`include/matrix/static.hpp` and `include/matrix/dynamic.hpp`.

* `int` values are `Int`; axis lengths are `Nat` (the extents of the template
  parameter pack, the `length_` member of an array whose storage was obtained
  from `new T[length_]`).  No arithmetic of the modelled code can overflow: the
  only addition is `transformed_index += Dim` inside `transform_index`, executed
  only while `transformed_index < 0` with `0 < Dim`.
* A member function that can throw returns `Except`.  A mutating member
  function returns `Except (Error × σ) σ`: the new state of the object, or the
  exception together with the state of the object at the moment of the throw.
* A value returned or passed by copy is the value itself.
* The `operator!=` of the element type is the argument `ne` of `all_equal`: it
  need not be the negation of equality (`NaN != NaN` holds for `float` and
  `double`).  `T` carries `Inhabited`: `default` stands for the indeterminate
  content of a freshly obtained `T` slot.
-/

namespace math

/-- Modelled from the spec: `OutOfRange` is declared in `base.hpp`, which is not
part of the sources; it carries the offending index and the axis length.
`MismatchedLength` is the class of `dynamic.hpp`.  `OutOfBounds` is not an
exception: it marks a raw subscript `data_[j]` evaluated with `j` outside the
storage, which the language leaves undefined. -/
inductive Error where
  | OutOfRange (index : Int) (length : Int)
  | MismatchedLength (left_length : Int) (right_length : Int)
  | OutOfBounds
  deriving DecidableEq, Repr

/-- The raw subscript `data_[index]` on a block of `data_.length` slots. -/
def subscript {E : Type} (data_ : List E) (index : Int) : Except Error E :=
  if index < 0 then .error .OutOfBounds
  else
    match data_[index.toNat]? with
    | some e => .ok e
    | none => .error .OutOfBounds

/-- The loop `for(int index = 0; index < count; ++index) body`, entered at
`index` with `count` iterations left; a throwing body ends the loop. -/
def forLoop {ε σ : Type} (body : Nat → σ → Except ε σ) : Nat → Nat → σ → Except ε σ
  | 0, _, s => .ok s
  | count + 1, index, s =>
    match body index s with
    | .ok s2 => forLoop body count (index + 1) s2
    | .error e => .error e

/-- The loop `for(...) { if(!test(index)) return false; } return true;`. -/
def allLoop (test : Nat → Except Error Bool) : Nat → Nat → Except Error Bool
  | 0, _ => .ok true
  | count + 1, index =>
    match test index with
    | .error e => .error e
    | .ok false => .ok false
    | .ok true => allLoop test count (index + 1)

/-! ## Static family (`static.hpp`) -/

/-- The member `E data_[Dim]`: exactly `Dim` slots. -/
abbrev Storage (E : Type) (Dim : Nat) : Type := { data_ : List E // data_.length = Dim }

/-- The class `Array<T, true, Shape...>`; the empty shape is the element type itself, so
that `Array<T, true, Dim>` is `StaticArray T [Dim]` with `T data_[Dim]` and
`Array<T, true, FirstDim, OtherDim...>` holds `SubArray data_[FirstDim]`. -/
@[reducible] def StaticArray (T : Type) : List Nat → Type
  | [] => T
  | FirstDim :: OtherDim => Storage (StaticArray T OtherDim) FirstDim

/-- Content of a default-constructed static array: every leaf indeterminate. -/
def StaticArray.uninit {T : Type} [Inhabited T] : (Shape : List Nat) → StaticArray T Shape
  | [] => (default : T)
  | FirstDim :: OtherDim => ⟨List.replicate FirstDim (StaticArray.uninit OtherDim), by simp⟩

instance StaticArray.decEq {T : Type} [DecidableEq T] :
    (Shape : List Nat) → DecidableEq (StaticArray T Shape)
  | [] => by unfold StaticArray; infer_instance
  | _ :: OtherDim => by
    unfold StaticArray
    have := StaticArray.decEq (T := T) OtherDim
    infer_instance

namespace Static

/-- Member `check_input` of both static classes (`Dim` is `FirstDim` in the second). -/
def check_input (Dim : Nat) (index : Int) : Except Error Unit :=
  if index ≥ Dim ∨ index < 0 then .error (.OutOfRange index Dim) else .ok ()

/-- The loop `while(transformed_index < 0) transformed_index += Dim;` with a
bound on the number of iterations. -/
def transform_loop (Dim : Nat) : Nat → Int → Int
  | 0, transformed_index => transformed_index
  | fuel + 1, transformed_index =>
    if transformed_index < 0 then transform_loop Dim fuel (transformed_index + Dim)
    else transformed_index

/-- Member `transform_index` of both static classes.  With `0 < Dim` (the `requires`
clause of the class) the loop leaves after at most `-index` iterations. -/
def transform_index (Dim : Nat) (index : Int) : Int :=
  transform_loop Dim (-index).toNat index

/-- The raw write `data_[index] = value` on the inline storage. -/
def store {E : Type} {Dim : Nat} (self : Storage E Dim) (index : Int) (value : E) :
    Except Error (Storage E Dim) :=
  if index < 0 ∨ index ≥ Dim then .error .OutOfBounds
  else .ok ⟨self.val.set index.toNat value, by simp [self.property]⟩

/-- Member `operator()(int index) const` of both static classes. -/
def at_ {E : Type} {Dim : Nat} (self : Storage E Dim) (index : Int) : Except Error E :=
  let index := transform_index Dim index
  match check_input Dim index with
  | .error e => .error e
  | .ok () => subscript self.val index

/-- Writing `value` through the reference returned by the non-const
`operator()(int index)`: the whole of `self(index) = value` for a scalar slot. -/
def put {E : Type} {Dim : Nat} (self : Storage E Dim) (index : Int) (value : E) :
    Except Error (Storage E Dim) :=
  let index := transform_index Dim index
  match check_input Dim index with
  | .error e => .error e
  | .ok () => store self index value

/-- Member `length()` of both static classes. -/
def length {E : Type} {Dim : Nat} (_self : Storage E Dim) : Nat := Dim

/-- Member `operator=(const Array& array)` of both static classes; in the second the
assignment `data_[index] = array(index)` is the `operator=` of `SubArray`. -/
def assign {T : Type} : (Dim : Nat) → (OtherDim : List Nat) →
    StaticArray T (Dim :: OtherDim) → StaticArray T (Dim :: OtherDim) →
    Except Error (StaticArray T (Dim :: OtherDim))
  | _, [], self, array =>
    forLoop
      (fun index data_ =>
        match at_ array index with
        | .error e => .error e
        | .ok value => store data_ index value)
      (length array) 0 self
  | _, d :: ds, self, array =>
    forLoop
      (fun index data_ =>
        match at_ array index with
        | .error e => .error e
        | .ok value =>
          match subscript data_.val index with
          | .error e => .error e
          | .ok slot =>
            match assign d ds slot value with
            | .error e => .error e
            | .ok slot2 => store data_ index slot2)
      (length array) 0 self

/-- The gather `operator()(const Array<int, true, Size>& indices) const`: the
first case is the member of `Array<T, true, Dim>`, the second the member of
`Array<T, true, FirstDim, OtherDim...>`. -/
def gather {T : Type} [Inhabited T] : (Dim : Nat) → (OtherDim : List Nat) → (Size : Nat) →
    StaticArray T (Dim :: OtherDim) → StaticArray Int [Size] →
    Except Error (StaticArray T (Size :: OtherDim))
  | _, [], Size, self, indices =>
    forLoop
      (fun index indexed =>
        match at_ indices index with
        | .error e => .error e
        | .ok j =>
          match subscript self.val j with
          | .error e => .error e
          | .ok value => put indexed index value)
      Size 0 (StaticArray.uninit [Size])
  | FirstDim, d :: ds, Size, self, indices =>
    forLoop
      (fun index indexed =>
        match at_ indices index with
        | .error e => .error e
        | .ok j =>
          let transformed_index := transform_index FirstDim j
          match check_input FirstDim transformed_index with
          | .error e => .error e
          | .ok () =>
            match subscript self.val transformed_index with
            | .error e => .error e
            | .ok value =>
              match at_ indexed index with
              | .error e => .error e
              | .ok slot =>
                match assign d ds slot value with
                | .error e => .error e
                | .ok slot2 => put indexed index slot2)
      Size 0 (StaticArray.uninit (Size :: d :: ds))

/-- The two overloads of `all_equal` on static arrays: `StaticVector` first,
then `StaticArray` with more than one length; `ne` is the `operator!=` of the
element type. -/
def all_equal {T : Type} (ne : T → T → Bool) : (Dim : Nat) → (OtherDim : List Nat) →
    StaticArray T (Dim :: OtherDim) → StaticArray T (Dim :: OtherDim) → Except Error Bool
  | _, [], left, right =>
    allLoop
      (fun index =>
        match at_ left index, at_ right index with
        | .ok (l : T), .ok (r : T) => .ok (if ne l r then false else true)
        | .error e, _ => .error e
        | _, .error e => .error e)
      (length left) 0
  | _, d :: ds, left, right =>
    allLoop
      (fun index =>
        match at_ left index, at_ right index with
        | .ok l, .ok r => all_equal ne d ds l r
        | .error e, _ => .error e
        | _, .error e => .error e)
      (length left) 0

end Static

/-! ## Dynamic family (`dynamic.hpp`) -/

/-- The class `Array<T, false, NumDims>`: `Array<T, false, 1>` owns `length_` elements
of `T`, `Array<T, false, NumDims>` owns `length_` arrays of `NumDims - 1`
dimensions; the list is the block `data_` and its length is `length_`.  Zero
dimensions is the element type itself. -/
@[reducible] def DynamicArray (T : Type) : Nat → Type
  | 0 => T
  | NumDims + 1 => List (DynamicArray T NumDims)

/-- A slot of `new E[n]`: indeterminate for an element, the default
constructor `Array() : length_(0) {}` for a sub-array. -/
def DynamicArray.fresh {T : Type} [Inhabited T] : (NumDims : Nat) → DynamicArray T NumDims
  | 0 => (default : T)
  | _ + 1 => ([] : List _)

instance DynamicArray.decEq {T : Type} [DecidableEq T] :
    (NumDims : Nat) → DecidableEq (DynamicArray T NumDims)
  | 0 => by unfold DynamicArray; infer_instance
  | NumDims + 1 => by
    unfold DynamicArray
    have := DynamicArray.decEq (T := T) NumDims
    infer_instance

namespace Dynamic

/-- The raw write `data_[index] = value` on the heap block. -/
def store {E : Type} (data_ : List E) (index : Int) (value : E) : Except Error (List E) :=
  if index < 0 ∨ index ≥ data_.length then .error .OutOfBounds
  else .ok (data_.set index.toNat value)

/-- Member `length()` of both dynamic classes. -/
def length {E : Type} (self : List E) : Nat := self.length

/-- Member `check_input` of both dynamic classes. -/
def check_input (length_ : Nat) (index : Int) : Except Error Unit :=
  if index ≥ length_ ∨ index < 0 then .error (.OutOfRange index length_) else .ok ()

/-- Member `check_length_matches` of `Array<T, false, 1>`. -/
def check_length_matches {E : Type} (self array : List E) : Except Error Unit :=
  if length self ≠ length array then .error (.MismatchedLength (length self) (length array))
  else .ok ()

/-- Member `operator()(int index) const` of both dynamic classes. -/
def at_ {E : Type} (self : List E) (index : Int) : Except Error E :=
  match check_input (length self) index with
  | .error e => .error e
  | .ok () => subscript self index

/-- Writing `value` through the reference returned by the non-const
`operator()(int index)`. -/
def put {E : Type} (self : List E) (index : Int) (value : E) : Except Error (List E) :=
  match check_input (length self) index with
  | .error e => .error e
  | .ok () => store self index value

/-- Member `allocate(int _length)` of both dynamic classes, for `0 ≤ _length`: the
old block is released and `new E[_length]` takes its place. -/
def allocate {T : Type} [Inhabited T] (NumDims : Nat) (_self : DynamicArray T (NumDims + 1))
    (_length : Nat) : DynamicArray T (NumDims + 1) :=
  List.replicate _length (DynamicArray.fresh NumDims)

/-- The step `data_[index] = vector(index)` of the loops of
`Array<T, false, 1>`. -/
def copy_element {T : Type} (vector : DynamicArray T 1) (index : Nat)
    (data_ : DynamicArray T 1) : Except (Error × DynamicArray T 1) (DynamicArray T 1) :=
  match at_ vector index with
  | .error e => .error (e, data_)
  | .ok value =>
    match store data_ index value with
    | .error e => .error (e, data_)
    | .ok data2 => .ok data2

/-- Member `fill(const Array& vector)` of `Array<T, false, 1>`. -/
def fill_vector {T : Type} [Inhabited T] (self vector : DynamicArray T 1) :
    Except (Error × DynamicArray T 1) (DynamicArray T 1) :=
  let self : DynamicArray T 1 := if length self = 0 then allocate 0 self (length vector) else self
  match check_length_matches self vector with
  | .error e => .error (e, self)
  | .ok () =>
    forLoop (copy_element vector) (length self) 0 self

/-- Member `operator=(const Array& vector)` of `Array<T, false, 1>`. -/
def assign_vector {T : Type} [Inhabited T] (self vector : DynamicArray T 1) :
    Except (Error × DynamicArray T 1) (DynamicArray T 1) :=
  let self : DynamicArray T 1 := if length self = 0 then allocate 0 self (length vector) else self
  match check_length_matches self vector with
  | .error e => .error (e, self)
  | .ok () =>
    forLoop (copy_element vector) (length self) 0 self

/-- The step `data_[index].fill(array(index))` of the loops of the class with
`NumDims > 1`, given the `fill` of `SubArray`: an exception leaves the row as
the inner `fill` left it. -/
def fill_row {S : Type} (fillSub : S → S → Except (Error × S) S) (array : List S)
    (index : Nat) (data_ : List S) : Except (Error × List S) (List S) :=
  match at_ array index with
  | .error e => .error (e, data_)
  | .ok value =>
    match subscript data_ index with
    | .error e => .error (e, data_)
    | .ok row =>
      match fillSub row value with
      | .error (e, row2) => .error (e, data_.set index row2)
      | .ok row2 =>
        match store data_ index row2 with
        | .error e => .error (e, data_)
        | .ok data2 => .ok data2

/-- Member `fill(const Array&)`: of `Array<T, false, 1>` for one dimension, of
`Array<T, false, NumDims>` for more. -/
def fill {T : Type} [Inhabited T] : (NumDims : Nat) →
    DynamicArray T (NumDims + 1) → DynamicArray T (NumDims + 1) →
    Except (Error × DynamicArray T (NumDims + 1)) (DynamicArray T (NumDims + 1))
  | 0, self, array => fill_vector self array
  | n + 1, self, array =>
    if length self = 0 then
      let self := allocate (n + 1) self (length array)
      forLoop (fill_row (fill n) array) (length self) 0 self
    else if length self ≠ length array then
      .error (.MismatchedLength (length self) (length array), self)
    else
      forLoop (fill_row (fill n) array) (length self) 0 self

/-- Member `operator=(const Array&)`: of `Array<T, false, 1>` for one dimension; for
more it is `fill(array)`. -/
def assign {T : Type} [Inhabited T] : (NumDims : Nat) →
    DynamicArray T (NumDims + 1) → DynamicArray T (NumDims + 1) →
    Except (Error × DynamicArray T (NumDims + 1)) (DynamicArray T (NumDims + 1))
  | 0, self, array => assign_vector self array
  | n + 1, self, array => fill (n + 1) self array

/-- The gather `operator()(const Array<int, false, 1>& indices) const`: of
`Array<T, false, 1>` for one dimension, of `Array<T, false, NumDims>` for
more. -/
def gather {T : Type} [Inhabited T] : (NumDims : Nat) →
    DynamicArray T (NumDims + 1) → DynamicArray Int 1 →
    Except Error (DynamicArray T (NumDims + 1))
  | 0, self, indices =>
    let indexed : DynamicArray T 1 := List.replicate (length indices) (default : T)
    forLoop
      (fun index (indexed : DynamicArray T 1) =>
        match at_ indices index with
        | .error e => .error e
        | .ok j =>
          match subscript self j with
          | .error e => .error e
          | .ok data => put indexed index data)
      (length indexed) 0 indexed
  | n + 1, self, indices =>
    let indexed : DynamicArray T (n + 2) := allocate (n + 1) (DynamicArray.fresh (n + 2)) (length indices)
    forLoop
      (fun index (indexed : DynamicArray T (n + 2)) =>
        match at_ indices index with
        | .error e => .error e
        | .ok j =>
          match subscript self j with
          | .error e => .error e
          | .ok value =>
            match at_ indexed index with
            | .error e => .error e
            | .ok slot =>
              match assign n slot value with
              | .error (e, _) => .error e
              | .ok slot2 => put indexed index slot2)
      (length indices) 0 indexed

/-- The two overloads of `all_equal` on dynamic arrays: `DynamicVector`
first, then `DynamicArray` with `NumDims > 1`; `ne` is the `operator!=` of the
element type. -/
def all_equal {T : Type} (ne : T → T → Bool) : (NumDims : Nat) →
    DynamicArray T (NumDims + 1) → DynamicArray T (NumDims + 1) → Except Error Bool
  | 0, left, right =>
    if length left ≠ length right then
      .error (.MismatchedLength (length left) (length right))
    else
      allLoop
        (fun index =>
          match at_ left index, at_ right index with
          | .ok (l : T), .ok (r : T) => .ok (if ne l r then false else true)
          | .error e, _ => .error e
          | _, .error e => .error e)
        (length left) 0
  | n + 1, left, right =>
    if length left ≠ length right then
      .error (.MismatchedLength (length left) (length right))
    else
      allLoop
        (fun index =>
          match at_ left index, at_ right index with
          | .ok l, .ok r => all_equal ne n l r
          | .error e, _ => .error e
          | _, .error e => .error e)
        (length left) 0

/-- The argument pack of `operator()(int index, OtherIndices... others)`
together with the last `int`: one coordinate per dimension. -/
def Coords : Nat → Type
  | 0 => Int
  | n + 1 => Int × Coords n

/-- Indexing with one coordinate per dimension: `operator()(int index) const`
of `Array<T, false, 1>`, and `operator()(int index, OtherIndices... others)
const` for more dimensions. -/
def at_coords {T : Type} : (NumDims : Nat) → DynamicArray T (NumDims + 1) → Coords NumDims →
    Except Error T
  | 0, self, index => at_ self index
  | n + 1, self, (index, others) =>
    match check_input (length self) index with
    | .error e => .error e
    | .ok () =>
      match subscript self index with
      | .error e => .error e
      | .ok row => at_coords n row others

/-- Two dynamic arrays have the same shape at every axis: equal `length()`,
and row by row the same shape. -/
def same_shape {T : Type} : (NumDims : Nat) →
    DynamicArray T (NumDims + 1) → DynamicArray T (NumDims + 1) → Bool
  | 0, a, b => decide (length a = length b)
  | n + 1, a, b =>
    decide (length a = length b) && (List.zip a b).all (fun rows => same_shape n rows.1 rows.2)

end Dynamic

/-! ## Arrays of the scenarios -/

namespace Scenario

/-- The vector `StaticVector<int,4>{1,2,3,4}`. -/
def static_vector : StaticArray Int [4] := ⟨[1, 2, 3, 4], rfl⟩

/-- The vector `StaticVector<int,4>{1,2,3,5}`. -/
def static_vector_other : StaticArray Int [4] := ⟨[1, 2, 3, 5], rfl⟩

/-- The array `StaticArray<int,2,3>{{1,2,3},{4,5,6}}`. -/
def static_matrix : StaticArray Int [2, 3] := ⟨[⟨[1, 2, 3], rfl⟩, ⟨[4, 5, 6], rfl⟩], rfl⟩

/-- The vector `DynamicVector<int>{1,2,3}`. -/
def dynamic_vector : DynamicArray Int 1 := [1, 2, 3]

/-- A 2×3 `DynamicMatrix<int>`. -/
def matrix_2x3 : DynamicArray Int 2 := [[1, 2, 3], [4, 5, 6]]

/-- A 2×3 `DynamicMatrix<int>` that differs from `matrix_2x3` in its last
element. -/
def matrix_2x3_other : DynamicArray Int 2 := [[1, 2, 3], [4, 5, 7]]

/-- A 3×3 `DynamicMatrix<int>`. -/
def matrix_3x3 : DynamicArray Int 2 := [[1, 2, 3], [4, 5, 6], [7, 8, 9]]

/-- A default-constructed `DynamicMatrix<int>`. -/
def matrix_unallocated : DynamicArray Int 2 := []

/-- The `operator!=` of `int`. -/
def int_ne (a b : Int) : Bool := decide (a ≠ b)

/-- The values of a `double` that the scenarios use: the integers and NaN. -/
inductive Double where
  | value (v : Int)
  | nan
  deriving DecidableEq, Repr, Inhabited

/-- The `operator!=` of `double` on these values: NaN differs from every
value, itself included. -/
def double_ne : Double → Double → Bool
  | .value a, .value b => decide (a ≠ b)
  | _, _ => true

/-- The vector `DynamicVector<double>{1.0, NaN}`. -/
def vector_with_nan : DynamicArray Double 1 := [.value 1, .nan]

/-- The vector `StaticVector<double,2>{1.0, NaN}`. -/
def static_vector_with_nan : StaticArray Double [2] := ⟨[.value 1, .nan], rfl⟩

end Scenario

/-! ## Predicates of the proofs -/

/-- What the copying loops maintain: the slots below `i` hold the target,
the slots from `i` on hold what they held at the start. -/
def CopyInv {E : Type} (target init : List E) (i : Nat) (s : List E) : Prop :=
  s.length = target.length ∧
  (∀ j, j < i → s[j]? = target[j]?) ∧
  (∀ j, i ≤ j → s[j]? = init[j]?)

/-- The identity index vector `[0, 1, ..., L-1]`. -/
def identity_indices (L : Nat) : List Int := (List.range L).map Int.ofNat

namespace Scenario

/-- The matrix `DynamicMatrix<int>{{1,2},{3}}`, whose rows have different
lengths. -/
def ragged_matrix : DynamicArray Int 2 := [[1, 2], [3]]

/-- The matrix `DynamicMatrix<int>{{5,6},{7,8}}`. -/
def matrix_2x2 : DynamicArray Int 2 := [[5, 6], [7, 8]]

end Scenario

/-! ## Further members and builders -/

/-- The state of the object when a mutating member is left, by return or by
exception. -/
def final_state {σ : Type} : Except (Error × σ) σ → σ
  | .ok s => s
  | .error (_, s) => s

/-- An exception that leaves a constructor or a function with a local object:
the object under construction is gone, the exception remains. -/
def discard_state {σ α : Type} : Except (Error × σ) α → Except Error α
  | .ok a => .ok a
  | .error (e, _) => .error e

/-- The loop `int index = 0; for(auto value : values) { body; ++index; }`. -/
def forEach {ε α σ : Type} (body : Nat → α → σ → Except ε σ) : List α → Nat → σ → Except ε σ
  | [], _, s => .ok s
  | value :: rest, index, s =>
    match body index value s with
    | .ok s2 => forEach body rest (index + 1) s2
    | .error e => .error e

namespace Dynamic

/-- The nested `std::initializer_list` of an array of `NumDims` dimensions: a
list of values for one dimension, a list of nested lists for more. -/
abbrev InitializerList (T : Type) (NumDims : Nat) : Type := DynamicArray T NumDims

/-- The lengths `int _length, OtherLengths... others` of the sized
constructor and of `allocate`, one per dimension, each `0 ≤ _length`. -/
@[reducible] def Lengths : Nat → Type
  | 0 => Nat
  | n + 1 => Nat × Lengths n

/-- First length of the pack. -/
def outer_length : (n : Nat) → Lengths n → Nat
  | 0, _length => _length
  | _ + 1, (_length, _) => _length

/-- The step `data_[index].member(...)` of a loop over the rows: an exception
leaves the row as the member left it. -/
def on_row {S : Type} (member : S → Except (Error × S) S) (index : Nat) (data_ : List S) :
    Except (Error × List S) (List S) :=
  match subscript data_ index with
  | .error e => .error (e, data_)
  | .ok row =>
    match member row with
    | .error (e, row2) => .error (e, data_.set index row2)
    | .ok row2 =>
      match store data_ index row2 with
      | .error e => .error (e, data_)
      | .ok data2 => .ok data2

/-- The step `data_[index] = value` of the loops that write a given value. -/
def store_element {T : Type} (index : Nat) (value : T) (data_ : DynamicArray T 1) :
    Except (Error × DynamicArray T 1) (DynamicArray T 1) :=
  match store data_ index value with
  | .error e => .error (e, data_)
  | .ok data2 => .ok data2

/-- Member `allocate` with one length per dimension: `allocate(int _length)`
of `Array<T, false, 1>`, `allocate(int _length, OtherLengths... others)` of
`Array<T, false, NumDims>`. -/
def allocate_lengths {T : Type} [Inhabited T] : (NumDims : Nat) →
    DynamicArray T (NumDims + 1) → Lengths NumDims →
    Except (Error × DynamicArray T (NumDims + 1)) (DynamicArray T (NumDims + 1))
  | 0, self, _length => .ok (allocate 0 self _length)
  | n + 1, self, (_length, others) =>
    let self := allocate (n + 1) self _length
    forLoop (on_row (fun row => allocate_lengths n row others)) (length self) 0 self

/-- The sized constructors `Array(int _length)` and
`Array(int _length, OtherDims... others)`. -/
def sized {T : Type} [Inhabited T] : (NumDims : Nat) → Lengths NumDims →
    Except Error (DynamicArray T (NumDims + 1))
  | 0, _length => .ok (List.replicate _length (default : T))
  | n + 1, (_length, others) =>
    let data_ : DynamicArray T (n + 2) := List.replicate _length (DynamicArray.fresh (n + 1))
    discard_state
      (forLoop (on_row (fun row => allocate_lengths n row others)) (length data_) 0 data_)

/-- Member `allocate_like(const Array& array)` of both dynamic classes. -/
def allocate_like {T : Type} [Inhabited T] : (NumDims : Nat) →
    DynamicArray T (NumDims + 1) → DynamicArray T (NumDims + 1) →
    Except (Error × DynamicArray T (NumDims + 1)) (DynamicArray T (NumDims + 1))
  | 0, self, array => .ok (allocate 0 self (length array))
  | n + 1, self, array =>
    let self := allocate (n + 1) self (length array)
    forLoop
      (fun index data_ =>
        match at_ array index with
        | .error e => .error (e, data_)
        | .ok sub => on_row (fun row => allocate_like n row sub) index data_)
      (length self) 0 self

/-- The two overloads of `empty_like` on dynamic arrays. -/
def empty_like {T : Type} [Inhabited T] : (NumDims : Nat) → DynamicArray T (NumDims + 1) →
    Except Error (DynamicArray T (NumDims + 1))
  | 0, vector => sized 0 (length vector)
  | n + 1, array => discard_state (allocate_like (n + 1) (DynamicArray.fresh (n + 2)) array)

/-- Member `fill(T value)` of both dynamic classes. -/
def fill_value {T : Type} : (NumDims : Nat) → DynamicArray T (NumDims + 1) → T →
    Except (Error × DynamicArray T (NumDims + 1)) (DynamicArray T (NumDims + 1))
  | 0, self, value => forLoop (fun index data_ => store_element index value data_) (length self) 0 self
  | n + 1, self, value =>
    forLoop (on_row (fun row => fill_value n row value)) (length self) 0 self

/-- Member `fill(const InitializerList& values)` of both dynamic classes. -/
def fill_values {T : Type} [Inhabited T] : (NumDims : Nat) →
    DynamicArray T (NumDims + 1) → InitializerList T (NumDims + 1) →
    Except (Error × DynamicArray T (NumDims + 1)) (DynamicArray T (NumDims + 1))
  | 0, self, values =>
    let self : DynamicArray T 1 :=
      if length self = 0 then allocate 0 self (List.length values) else self
    if List.length values ≠ length self then
      .error (.MismatchedLength (length self) (List.length values), self)
    else
      forEach store_element values 0 self
  | n + 1, self, values =>
    let self : DynamicArray T (n + 2) :=
      if length self = 0 then allocate (n + 1) self (List.length values) else self
    if List.length values ≠ length self then
      .error (.MismatchedLength (length self) (List.length values), self)
    else
      forEach (fun index value data_ => on_row (fun row => fill_values n row value) index data_)
        values 0 self

/-- The constructors `Array(const InitializerList& values)` of both dynamic
classes. -/
def from_values {T : Type} [Inhabited T] : (NumDims : Nat) → InitializerList T (NumDims + 1) →
    Except Error (DynamicArray T (NumDims + 1))
  | 0, values =>
    let data_ : DynamicArray T 1 := List.replicate (List.length values) (default : T)
    discard_state (forEach store_element values 0 data_)
  | n + 1, values =>
    let data_ : DynamicArray T (n + 2) :=
      List.replicate (List.length values) (DynamicArray.fresh (n + 1))
    discard_state
      (forEach (fun index value data_ => on_row (fun row => fill_values n row value) index data_)
        values 0 data_)

/-- The copy constructors `Array(const Array& array)` of both dynamic
classes. -/
def copy {T : Type} [Inhabited T] : (NumDims : Nat) → DynamicArray T (NumDims + 1) →
    Except Error (DynamicArray T (NumDims + 1))
  | 0, array =>
    let data_ : DynamicArray T 1 := List.replicate (length array) (default : T)
    discard_state (fill_vector data_ array)
  | n + 1, array =>
    let data_ : DynamicArray T (n + 2) :=
      List.replicate (length array) (DynamicArray.fresh (n + 1))
    discard_state (forLoop (fill_row (fill n) array) (length data_) 0 data_)

/-- Writing `value` through the reference returned by the non-const
`operator()` called with one coordinate per dimension. -/
def put_coords {T : Type} : (NumDims : Nat) → DynamicArray T (NumDims + 1) → Coords NumDims →
    T → Except Error (DynamicArray T (NumDims + 1))
  | 0, self, index, value => put self index value
  | n + 1, self, (index, others), value =>
    match check_input (length self) index with
    | .error e => .error e
    | .ok () =>
      match subscript self index with
      | .error e => .error e
      | .ok row =>
        match put_coords n row others value with
        | .error e => .error e
        | .ok row2 => store self index row2

/-- The builder `Identity<T>(int N)` for `0 ≤ N`; `static_cast<T>(1)` and
`static_cast<T>(0)` are the `1` and `0` of `T`. -/
def Identity {T : Type} [Inhabited T] [One T] [Zero T] (N : Nat) :
    Except Error (DynamicArray T 2) :=
  match sized 1 (N, N) with
  | .error e => .error e
  | .ok matrix =>
    forLoop
      (fun row matrix =>
        forLoop
          (fun column matrix =>
            put_coords 1 matrix ((row : Int), (column : Int))
              (if row = column then (1 : T) else (0 : T)))
          N 0 matrix)
      N 0 matrix

/-- An array has the rectangular shape given by one length per dimension. -/
def has_shape {T : Type} : (NumDims : Nat) → Lengths NumDims → DynamicArray T (NumDims + 1) → Bool
  | 0, len, a => decide (length a = len)
  | n + 1, (len, others), a => decide (length a = len) && List.all a (has_shape n others)

end Dynamic

namespace Static

/-- One coordinate per dimension of a static array with the given further
extents. -/
@[reducible] def Coords : List Nat → Type
  | [] => Int
  | _ :: ds => Int × Coords ds

/-- Indexing with one coordinate per dimension: `operator()(int index) const`
of `Array<T, true, Dim>`, `operator()(int first, OtherIndices... others) const`
for more dimensions. -/
def at_coords {T : Type} : (Dim : Nat) → (OtherDim : List Nat) →
    StaticArray T (Dim :: OtherDim) → Coords OtherDim → Except Error T
  | _, [], self, index => at_ self index
  | Dim, d :: ds, self, (first, others) =>
    let first := transform_index Dim first
    match check_input Dim first with
    | .error e => .error e
    | .ok () =>
      match subscript self.val first with
      | .error e => .error e
      | .ok row => at_coords d ds row others

/-- Writing `value` through the reference returned by the non-const
`operator()` called with one coordinate per dimension. -/
def put_coords {T : Type} : (Dim : Nat) → (OtherDim : List Nat) →
    StaticArray T (Dim :: OtherDim) → Coords OtherDim → T →
    Except Error (StaticArray T (Dim :: OtherDim))
  | _, [], self, index, value => put self index value
  | Dim, d :: ds, self, (first, others), value =>
    let first := transform_index Dim first
    match check_input Dim first with
    | .error e => .error e
    | .ok () =>
      match subscript self.val first with
      | .error e => .error e
      | .ok row =>
        match put_coords d ds row others value with
        | .error e => .error e
        | .ok row2 => store self first row2

/-- The copy constructors `Array(const Array& array)` of both static classes:
the loop of `operator=` run on the default-initialised member `data_`. -/
def copy {T : Type} [Inhabited T] (Dim : Nat) (OtherDim : List Nat)
    (array : StaticArray T (Dim :: OtherDim)) : Except Error (StaticArray T (Dim :: OtherDim)) :=
  assign Dim OtherDim (StaticArray.uninit (Dim :: OtherDim)) array

/-- The builder `Identity<T, N>()`; `static_cast<T>(1)` and `static_cast<T>(0)`
are the `1` and `0` of `T`. -/
def Identity {T : Type} [Inhabited T] [One T] [Zero T] (N : Nat) :
    Except Error (StaticArray T [N, N]) :=
  forLoop
    (fun row matrix =>
      forLoop
        (fun column matrix =>
          put_coords N [N] matrix ((row : Int), (column : Int))
            (if row = column then (1 : T) else (0 : T)))
        N 0 matrix)
    N 0 (StaticArray.uninit [N, N])

end Static

namespace Scenario

/-- The matrix `DynamicMatrix<int>{{1},{2},{4,5,7}}`. -/
def masked_left : DynamicArray Int 2 := [[1], [2], [4, 5, 7]]

/-- The matrix `DynamicMatrix<int>{{1},{3},{4,5}}`: its last row is shorter
than the last row of `masked_left`. -/
def masked_right : DynamicArray Int 2 := [[1], [3], [4, 5]]

end Scenario

/-! ## Index normalisation and bounds checks -/

theorem subscript_of_lt {E : Type} (data_ : List E) (index : Int) (h0 : 0 ≤ index)
    (h : index.toNat < data_.length) : subscript data_ index = .ok data_[index.toNat] := by
  unfold subscript
  rw [if_neg (by omega), List.getElem?_eq_getElem h]

theorem subscript_nat {E : Type} (data_ : List E) (i : Nat) (h : i < data_.length) :
    subscript data_ (i : Int) = .ok data_[i] := by
  have := subscript_of_lt data_ (i : Int) (by omega) (by simpa using h)
  simpa using this

theorem subscript_out {E : Type} (data_ : List E) (index : Int)
    (h : index < 0 ∨ (data_.length : Int) ≤ index) : subscript data_ index = .error .OutOfBounds := by
  unfold subscript
  by_cases h0 : index < 0
  · rw [if_pos h0]
  · rw [if_neg h0, List.getElem?_eq_none (by omega)]

namespace Static

theorem transform_loop_of_nonneg (Dim fuel : Nat) (t : Int) (h : 0 ≤ t) :
    transform_loop Dim fuel t = t := by
  cases fuel with
  | zero => rfl
  | succ n => simp [transform_loop, not_lt.mpr h]

/-- With `0 < Dim` and enough fuel the loop returns the first non-negative
value of `t, t + Dim, t + 2 * Dim, ...`. -/
theorem transform_loop_eq (Dim : Nat) (hDim : 0 < Dim) :
    ∀ (fuel : Nat) (t : Int), (-t).toNat ≤ fuel →
      transform_loop Dim fuel t = if t < 0 then t % (Dim : Int) else t := by
  intro fuel
  induction fuel with
  | zero =>
    intro t h
    have : ¬ t < 0 := by omega
    simp [transform_loop, this]
  | succ n ih =>
    intro t h
    by_cases ht : t < 0
    · have hstep : transform_loop Dim (n + 1) t = transform_loop Dim n (t + Dim) := by
        simp [transform_loop, ht]
      rw [hstep, ih (t + Dim) (by omega), if_pos ht]
      by_cases h2 : t + (Dim : Int) < 0
      · rw [if_pos h2, Int.add_emod_self]
      · rw [if_neg h2]
        have h3 : (t + (Dim : Int)) % (Dim : Int) = t + Dim :=
          Int.emod_eq_of_lt (by omega) (by omega)
        rw [Int.add_emod_self] at h3
        exact h3.symm
    · rw [if_neg ht]
      exact transform_loop_of_nonneg Dim (n + 1) t (by omega)

theorem transform_index_of_nonneg (Dim : Nat) (index : Int) (h : 0 ≤ index) :
    transform_index Dim index = index :=
  transform_loop_of_nonneg Dim _ index h

theorem transform_index_of_neg (Dim : Nat) (hDim : 0 < Dim) (index : Int) (h : index < 0) :
    transform_index Dim index = index % (Dim : Int) := by
  unfold transform_index
  rw [transform_loop_eq Dim hDim _ index (le_refl _), if_pos h]

/-- One turn of the loop: a negative index and the index one axis length
further are normalised to the same position. -/
theorem transform_index_add (Dim : Nat) (hDim : 0 < Dim) (index : Int) (h : index < 0) :
    transform_index Dim index = transform_index Dim (index + Dim) := by
  rw [transform_index_of_neg Dim hDim index h]
  by_cases h2 : index + (Dim : Int) < 0
  · rw [transform_index_of_neg Dim hDim _ h2, Int.add_emod_self]
  · rw [transform_index_of_nonneg Dim _ (by omega)]
    have h3 : (index + (Dim : Int)) % (Dim : Int) = index + Dim :=
      Int.emod_eq_of_lt (by omega) (by omega)
    rw [Int.add_emod_self] at h3
    exact h3

theorem sat_of_lt {E : Type} {Dim : Nat} (self : Storage E Dim) (index : Int)
    (h0 : 0 ≤ index) (h : index < Dim) :
    ∃ hlt : index.toNat < self.val.length, at_ self index = .ok (self.val[index.toNat]) := by
  have hlt : index.toNat < self.val.length := by rw [self.property]; omega
  refine ⟨hlt, ?_⟩
  unfold at_
  simp only [transform_index_of_nonneg Dim index h0, check_input]
  rw [if_neg (by omega)]
  exact subscript_of_lt self.val index h0 hlt

theorem sat_of_ge {E : Type} {Dim : Nat} (self : Storage E Dim) (index : Int)
    (h : (Dim : Int) ≤ index) : at_ self index = .error (.OutOfRange index Dim) := by
  unfold at_
  simp only [transform_index_of_nonneg Dim index (by omega), check_input]
  rw [if_pos (Or.inl h)]

theorem sat_of_neg {E : Type} {Dim : Nat} (self : Storage E Dim) (hDim : 0 < Dim) (index : Int)
    (h : index < 0) : at_ self index = at_ self (index + Dim) := by
  unfold at_
  simp only [transform_index_add Dim hDim index h]

end Static
namespace Dynamic

theorem dat_of_lt {E : Type} (self : List E) (index : Int) (h0 : 0 ≤ index)
    (h : index < length self) :
    ∃ hlt : index.toNat < self.length, at_ self index = .ok (self[index.toNat]) := by
  have hlt : index.toNat < self.length := by unfold length at h; omega
  refine ⟨hlt, ?_⟩
  unfold at_ check_input
  rw [if_neg (by omega)]
  exact subscript_of_lt self index h0 hlt

theorem dat_nat {E : Type} (self : List E) (i : Nat) (h : i < self.length) :
    at_ self (i : Int) = .ok self[i] := by
  obtain ⟨_, h2⟩ := dat_of_lt self (i : Int) (by omega) (by unfold length; omega)
  simpa using h2

theorem dat_out {E : Type} (self : List E) (index : Int)
    (h : index < 0 ∨ (length self : Int) ≤ index) :
    at_ self index = .error (.OutOfRange index (length self)) := by
  unfold at_ check_input
  rw [if_pos (by omega)]

end Dynamic

/-! ## Ordinary indexing -/

/-- C1: on a static array of outermost length `L > 0` a negative index `i`
behaves as `i + L` (same value or same failure); `at(-1)` gives the element
of `at(L-1)`, `at(-L)` the element of `at(0)`, and `at(-1)` on
`StaticVector<int,4>{1,2,3,4}` gives 4. -/
theorem static_at_negative_index {T : Type} (L : Nat) (OtherDim : List Nat)
    (a : StaticArray T (L :: OtherDim)) (hL : 0 < L) (i : Int) (hi : i < 0) :
    Static.at_ a i = Static.at_ a (i + L) ∧
    (∃ last, Static.at_ a ((L : Int) - 1) = .ok last ∧ Static.at_ a (-1) = .ok last) ∧
    (∃ first, Static.at_ a 0 = .ok first ∧ Static.at_ a (-(L : Int)) = .ok first) ∧
    Static.at_ Scenario.static_vector (-1) = .ok (4 : Int) := by
  refine ⟨Static.sat_of_neg a hL i hi, ?_, ?_, rfl⟩
  · obtain ⟨_, h⟩ := Static.sat_of_lt a ((L : Int) - 1) (by omega) (by omega)
    refine ⟨_, h, ?_⟩
    rw [Static.sat_of_neg a hL (-1) (by omega), ← h]
    congr 1
  · obtain ⟨_, h⟩ := Static.sat_of_lt a 0 (le_refl _) (by omega)
    refine ⟨_, h, ?_⟩
    rw [Static.sat_of_neg a hL (-(L : Int)) (by omega), ← h]
    congr 1
    omega

theorem static_at_negative_index_witness :
    (0 < 2 ∧ (-3 : Int) < 0) ∧
    (Static.at_ Scenario.static_matrix (-3) = Static.at_ Scenario.static_matrix (-3 + (2 : Nat)) ∧
      (∃ last, Static.at_ Scenario.static_matrix (((2 : Nat) : Int) - 1) = .ok last ∧
        Static.at_ Scenario.static_matrix (-1) = .ok last) ∧
      (∃ first, Static.at_ Scenario.static_matrix 0 = .ok first ∧
        Static.at_ Scenario.static_matrix (-((2 : Nat) : Int)) = .ok first) ∧
      Static.at_ Scenario.static_vector (-1) = .ok (4 : Int)) :=
  ⟨by decide,
    static_at_negative_index 2 [3] Scenario.static_matrix (by decide) (-3) (by decide)⟩

/-- C2 refuted: on `StaticVector<int,4>{1,2,3,4}` the call `at(-(4+1))` does not
throw; it returns the last element. -/
theorem static_at_below_minus_length_counterexample :
    Static.at_ Scenario.static_vector (-(4 + 1)) = .ok (4 : Int) ∧
    ¬ ∃ index length, Static.at_ Scenario.static_vector (-(4 + 1)) =
      .error (.OutOfRange index length) := by
  refine ⟨rfl, ?_⟩
  rintro ⟨index, length, h⟩
  have h2 : Static.at_ Scenario.static_vector (-(4 + 1)) = .ok (4 : Int) := rfl
  rw [h2] at h
  cases h

/-- C2 as amended: on a static array of outermost length `L > 0` the call
`at(-(L+1))` succeeds and returns what `at(L-1)` returns, and no negative
index makes `at` fail. -/
theorem static_at_below_minus_length {T : Type} (L : Nat) (OtherDim : List Nat)
    (a : StaticArray T (L :: OtherDim)) (hL : 0 < L) :
    (∃ last, Static.at_ a ((L : Int) - 1) = .ok last ∧
      Static.at_ a (-((L : Int) + 1)) = .ok last) ∧
    ∀ i : Int, i < 0 → ∃ v, Static.at_ a i = .ok v := by
  constructor
  · obtain ⟨_, h⟩ := Static.sat_of_lt a ((L : Int) - 1) (by omega) (by omega)
    refine ⟨_, h, ?_⟩
    rw [Static.sat_of_neg a hL _ (by omega), Static.sat_of_neg a hL _ (by omega), ← h]
    congr 1
    omega
  · intro i hi
    have hpos : (0 : Int) < (L : Int) := by omega
    obtain ⟨_, h⟩ := Static.sat_of_lt a (i % (L : Int)) (Int.emod_nonneg i (by omega))
      (Int.emod_lt_of_pos i hpos)
    refine ⟨_, Eq.trans ?_ h⟩
    unfold Static.at_
    simp only [Static.transform_index_of_neg L hL i hi,
      Static.transform_index_of_nonneg L _ (Int.emod_nonneg i (by omega : (L : Int) ≠ 0))]

theorem static_at_below_minus_length_witness :
    0 < 4 ∧
    ((∃ last, Static.at_ Scenario.static_vector (((4 : Nat) : Int) - 1) =
          .ok last ∧
        Static.at_ Scenario.static_vector (-(((4 : Nat) : Int) + 1)) =
          .ok last) ∧
      ∀ i : Int, i < 0 →
        ∃ v, Static.at_ Scenario.static_vector i = .ok v) :=
  ⟨by decide,
    static_at_below_minus_length 4 [] Scenario.static_vector (by decide)⟩

/-- C3: on a dynamic array of outermost length `n`, `at(i)` returns the `i`-th
stored element or sub-array when `0 ≤ i < n` and throws `OutOfRange(i, n)` when
`i < 0` or `i ≥ n`, without normalisation; so `at(n)` and `at(-1)` always
throw, and on `DynamicVector<int>{1,2,3}` they throw `OutOfRange(3,3)` and
`OutOfRange(-1,3)`. -/
theorem dynamic_at_bounds {T : Type} (NumDims : Nat) (a : DynamicArray T (NumDims + 1))
    (i : Int) :
    (0 ≤ i ∧ i < Dynamic.length a →
      ∃ v, (a : List (DynamicArray T NumDims))[i.toNat]? = some v ∧ Dynamic.at_ a i = .ok v) ∧
    (i < 0 ∨ i ≥ Dynamic.length a →
      Dynamic.at_ a i = .error (.OutOfRange i (Dynamic.length a))) ∧
    Dynamic.at_ a (Dynamic.length a) =
      .error (.OutOfRange (Dynamic.length a) (Dynamic.length a)) ∧
    Dynamic.at_ a (-1) = .error (.OutOfRange (-1) (Dynamic.length a)) ∧
    Dynamic.at_ Scenario.dynamic_vector 3 = .error (.OutOfRange 3 3) ∧
    Dynamic.at_ Scenario.dynamic_vector (-1) = .error (.OutOfRange (-1) 3) ∧
    Dynamic.at_ Scenario.dynamic_vector 2 = .ok (3 : Int) := by
  refine ⟨?_, ?_, ?_, ?_, rfl, rfl, rfl⟩
  · rintro ⟨h0, h⟩
    obtain ⟨hlt, h2⟩ := Dynamic.dat_of_lt a i h0 h
    exact ⟨_, List.getElem?_eq_getElem hlt, h2⟩
  · intro h
    exact Dynamic.dat_out a i (by omega)
  · exact Dynamic.dat_out a _ (by omega)
  · exact Dynamic.dat_out a _ (by omega)

/-- C4: on a static array of outermost length `L`, `at(i)` throws
`OutOfRange(i, L)` for every `i ≥ L` and returns the element or sub-array
stored at position `i` for every `0 ≤ i < L`. -/
theorem static_at_bounds {T : Type} (L : Nat) (OtherDim : List Nat)
    (a : StaticArray T (L :: OtherDim)) (i : Int) :
    (i ≥ L → Static.at_ a i = .error (.OutOfRange i L)) ∧
    (0 ≤ i ∧ i < L →
      ∃ v, a.val[i.toNat]? = some v ∧ Static.at_ a i = .ok v) ∧
    Static.at_ Scenario.static_vector 4 = .error (.OutOfRange 4 4) ∧
    Static.at_ Scenario.static_vector 2 = .ok (3 : Int) := by
  refine ⟨fun h => Static.sat_of_ge a i h, ?_, rfl, rfl⟩
  rintro ⟨h0, h⟩
  obtain ⟨hlt, h2⟩ := Static.sat_of_lt a i h0 h
  exact ⟨_, List.getElem?_eq_getElem hlt, h2⟩

/-! ## Loops -/

/-- A property kept by every turn of a `for` loop whose body does not throw
holds when the loop is left, and the loop does not throw. -/
theorem forLoop_invariant {ε σ : Type} (body : Nat → σ → Except ε σ) (P : Nat → σ → Prop)
    (n : Nat) (hstep : ∀ i s, i < n → P i s → ∃ s2, body i s = .ok s2 ∧ P (i + 1) s2) :
    ∀ (count index : Nat) (s : σ), index + count = n → P index s →
      ∃ s2, forLoop body count index s = .ok s2 ∧ P n s2 := by
  intro count
  induction count with
  | zero =>
    intro index s hn hP
    have : index = n := by omega
    subst this
    exact ⟨s, rfl, hP⟩
  | succ c ih =>
    intro index s hn hP
    obtain ⟨s2, hb, hP2⟩ := hstep index s (by omega) hP
    obtain ⟨s3, hl, hP3⟩ := ih (index + 1) s2 (by omega) hP2
    refine ⟨s3, ?_, hP3⟩
    simp only [forLoop, hb]
    exact hl

/-- The early-return loop over tests that do not throw: the result is `true`
exactly when every remaining test is `true`. -/
theorem allLoop_ok (test : Nat → Except Error Bool) (Q : Nat → Prop) (n : Nat)
    (htest : ∀ i, i < n → ∃ r, test i = .ok r ∧ (r = true ↔ Q i)) :
    ∀ (count index : Nat), index + count = n →
      ∃ r, allLoop test count index = .ok r ∧
        (r = true ↔ ∀ i, index ≤ i → i < n → Q i) := by
  intro count
  induction count with
  | zero =>
    intro index hn
    refine ⟨true, rfl, ?_⟩
    simp only [true_iff]
    intro i h1 h2
    omega
  | succ c ih =>
    intro index hn
    obtain ⟨r0, ht, hq⟩ := htest index (by omega)
    cases r0 with
    | false =>
      refine ⟨false, ?_, ?_⟩
      · simp only [allLoop, ht]
      · simp only [Bool.false_eq_true, false_iff]
        intro hall
        have := hq.mpr (hall index (le_refl _) (by omega))
        exact Bool.false_ne_true this
    | true =>
      obtain ⟨r, hr, hiff⟩ := ih (index + 1) (by omega)
      refine ⟨r, ?_, ?_⟩
      · simp only [allLoop, ht]
        exact hr
      · rw [hiff]
        constructor
        · intro h i h1 h2
          by_cases hi : i = index
          · rw [hi]; exact hq.mp rfl
          · exact h i (by omega) h2
        · intro h i h1 h2
          exact h i (by omega) h2

/-- Two blocks of the same length with the same content slot by slot. -/
theorem list_eq_of_slots {E : Type} (s t : List E) (hlen : s.length = t.length)
    (h : ∀ j, j < t.length → s[j]? = t[j]?) : s = t := by
  apply List.ext_getElem?
  intro j
  by_cases hj : j < t.length
  · exact h j hj
  · rw [List.getElem?_eq_none (by omega), List.getElem?_eq_none (by omega)]

/-! ## Copying loops -/

theorem CopyInv.start {E : Type} (target init : List E) (h : init.length = target.length) :
    CopyInv target init 0 init :=
  ⟨h, fun j hj => by omega, fun _ _ => rfl⟩

theorem CopyInv.finish {E : Type} (target init s : List E)
    (h : CopyInv target init target.length s) : s = target :=
  list_eq_of_slots s target h.1 (fun j hj => h.2.1 j hj)

theorem CopyInv.step {E : Type} (target init s : List E) (i : Nat) (hi : i < target.length)
    (h : CopyInv target init i s) : CopyInv target init (i + 1) (s.set i target[i]) := by
  obtain ⟨h1, h2, h3⟩ := h
  refine ⟨by simp [h1], ?_, ?_⟩
  · intro j hj
    by_cases hji : j = i
    · subst hji
      rw [List.getElem?_set_self (by omega), List.getElem?_eq_getElem hi]
    · rw [List.getElem?_set_ne (by omega)]
      exact h2 j (by omega)
  · intro j hj
    rw [List.getElem?_set_ne (by omega)]
    exact h3 j (by omega)

theorem CopyInv.slot {E : Type} (target init s : List E) (i : Nat) (hi : i < init.length)
    (h : CopyInv target init i s) : ∃ hlt : i < s.length, s[i] = init[i] := by
  have h3 := h.2.2 i (le_refl _)
  rw [List.getElem?_eq_getElem hi] at h3
  obtain ⟨hlt, h4⟩ := List.getElem?_eq_some.mp h3
  exact ⟨hlt, h4⟩

namespace Dynamic

/-! ## Dynamic fill -/

theorem store_nat {E : Type} (data_ : List E) (i : Nat) (value : E) (h : i < data_.length) :
    store data_ (i : Int) value = .ok (data_.set i value) := by
  unfold store
  rw [if_neg (by omega)]
  simp

theorem put_nat {E : Type} (data_ : List E) (i : Nat) (value : E) (h : i < data_.length) :
    put data_ (i : Int) value = .ok (data_.set i value) := by
  unfold put check_input length
  rw [if_neg (by omega)]
  exact store_nat data_ i value h

theorem forLoop_copy_element {T : Type} (vector init : DynamicArray T 1)
    (hlen : length init = length vector) :
    forLoop (copy_element vector) (length init) 0 init = .ok vector := by
  unfold length at hlen
  obtain ⟨s2, h1, h2⟩ := forLoop_invariant (copy_element vector) (CopyInv vector init)
    (List.length vector) (by
      intro i s hi hP
      refine ⟨List.set s i (vector[i]), ?_, CopyInv.step vector init s i hi hP⟩
      unfold copy_element
      rw [dat_nat vector i hi]
      simp only
      rw [store_nat s i _ (by rw [hP.1]; exact hi)])
    (List.length vector) 0 init (by omega) (CopyInv.start vector init hlen)
  unfold length
  rw [hlen, h1, CopyInv.finish vector init s2 h2]

/-- Member `fill` of `Array<T, false, 1>` copies the argument when the array is
unallocated or has the argument's length. -/
theorem fill_vector_ok {T : Type} [Inhabited T] (self vector : DynamicArray T 1)
    (h : length self = 0 ∨ length self = length vector) :
    fill_vector self vector = .ok vector := by
  unfold fill_vector
  simp only []
  generalize hs : (if length self = 0 then allocate 0 self (length vector) else self) = s
  have hl : length s = length vector := by
    rw [← hs]
    by_cases h0 : length self = 0
    · rw [if_pos h0]
      simp [allocate, length]
    · rw [if_neg h0]
      cases h with
      | inl h => exact absurd h h0
      | inr h => exact h
  have hloop := forLoop_copy_element vector s hl
  simp only [check_length_matches, hl, ne_eq, not_true_eq_false, if_false]
  rw [hl] at hloop
  exact hloop

theorem fill_vector_throws_of_length_ne {T : Type} [Inhabited T] (self vector : DynamicArray T 1)
    (h0 : length self ≠ 0) (h : length self ≠ length vector) :
    fill_vector self vector =
      .error (.MismatchedLength (length self) (length vector), self) := by
  unfold fill_vector
  simp only [h0, if_false, check_length_matches, h, ne_eq, not_false_eq_true, if_true]

theorem forLoop_fill_row {S : Type} (fillSub : S → S → Except (Error × S) S)
    (array init : List S) (hlen : init.length = array.length)
    (hfill : ∀ i (h1 : i < init.length) (h2 : i < array.length),
      fillSub init[i] array[i] = .ok array[i]) :
    forLoop (fill_row fillSub array) (length init) 0 init = .ok array := by
  obtain ⟨s2, h1, h2⟩ := forLoop_invariant (fill_row fillSub array) (CopyInv array init)
    array.length (by
      intro i s hi hP
      refine ⟨List.set s i (array[i]), ?_, CopyInv.step array init s i hi hP⟩
      obtain ⟨hlt, hslot⟩ := CopyInv.slot array init s i (by omega) hP
      unfold fill_row
      rw [dat_nat array i hi]
      simp only
      rw [subscript_nat s i hlt]
      simp only
      rw [hslot, hfill i (by omega) hi]
      simp only
      rw [store_nat s i _ hlt])
    array.length 0 init (by omega) (CopyInv.start array init hlen)
  unfold length
  rw [hlen, h1, CopyInv.finish array init s2 h2]

/-- Member `fill` on an unallocated array allocates and copies the argument. -/
theorem fill_of_unallocated {T : Type} [Inhabited T] :
    ∀ (n : Nat) (a other : DynamicArray T (n + 1)), length a = 0 →
      fill n a other = .ok other := by
  intro n
  induction n with
  | zero =>
    intro a other ha
    exact fill_vector_ok a other (Or.inl ha)
  | succ n ih =>
    intro a other ha
    rw [fill]
    rw [if_pos ha]
    simp only []
    have hl : List.length (allocate (n + 1) a (length other)) = List.length other := by
      simp [allocate, length]
    apply forLoop_fill_row (fill n) other _ hl
    intro i h1 h2
    apply ih
    simp [allocate, length, DynamicArray.fresh]

theorem fill_throws_of_length_ne {T : Type} [Inhabited T] (n : Nat) (a other : DynamicArray T (n + 1))
    (h0 : length a ≠ 0) (h : length a ≠ length other) :
    fill n a other = .error (.MismatchedLength (length a) (length other), a) := by
  cases n with
  | zero => exact fill_vector_throws_of_length_ne a other h0 h
  | succ n =>
    rw [fill, if_neg h0, if_pos h]

/-! ## Shapes and equality of dynamic arrays -/

theorem same_shape_succ {T : Type} (n : Nat) (a b : DynamicArray T (n + 2)) :
    same_shape (n + 1) a b = true ↔
      length a = length b ∧
        ∀ i (h1 : i < List.length a) (h2 : i < List.length b),
          same_shape n (a[i]) (b[i]) = true := by
  rw [same_shape]
  simp only [Bool.and_eq_true, decide_eq_true_eq, List.all_eq_true]
  constructor
  · rintro ⟨hl, hall⟩
    refine ⟨hl, ?_⟩
    intro i h1 h2
    have hz : i < (List.zip a b).length := by simp [List.length_zip]; omega
    have hmem := List.getElem_mem hz
    have := hall _ hmem
    simpa [List.getElem_zip] using this
  · rintro ⟨hl, hall⟩
    refine ⟨hl, ?_⟩
    intro x hx
    obtain ⟨i, hi, rfl⟩ := List.mem_iff_getElem.mp hx
    have hi2 : i < List.length a ∧ i < List.length b := by
      simpa [List.length_zip] using hi
    have := hall i hi2.1 hi2.2
    simpa [List.getElem_zip] using this

theorem same_shape_refl {T : Type} : ∀ (n : Nat) (a : DynamicArray T (n + 1)),
    same_shape n a a = true := by
  intro n
  induction n with
  | zero => intro a; simp [same_shape]
  | succ n ih =>
    intro a
    rw [same_shape_succ]
    exact ⟨rfl, fun i h1 _ => ih _⟩

theorem all_equal_throws_of_length_ne {T : Type} (ne : T → T → Bool) (n : Nat)
    (a b : DynamicArray T (n + 1)) (h : length a ≠ length b) :
    all_equal ne n a b = .error (.MismatchedLength (length a) (length b)) := by
  cases n with
  | zero => rw [all_equal, if_pos h]
  | succ n => rw [all_equal, if_pos h]

theorem at_coords_succ_nat {T : Type} (n : Nat) (a : DynamicArray T (n + 2)) (i : Nat)
    (hi : i < List.length a) (others : Coords n) :
    at_coords (n + 1) a ((i : Int), others) = at_coords n (a[i]) others := by
  rw [at_coords]
  simp only [check_input, length]
  rw [if_neg (by omega)]
  simp only
  rw [subscript_nat a i hi]

/-- Arrays of the same shape are the same exactly when every pair of leaf
elements at the same coordinates is a pair of equal elements. -/
theorem eq_iff_leaves {T : Type} :
    ∀ (n : Nat) (a b : DynamicArray T (n + 1)), same_shape n a b = true →
      (a = b ↔ ∀ (c : Coords n) (v w : T),
        at_coords n a c = .ok v → at_coords n b c = .ok w → v = w) := by
  intro n
  induction n with
  | zero =>
    intro a b hs
    have hl : List.length a = List.length b := by simpa [same_shape, length] using hs
    constructor
    · intro h c v w hv hw
      rw [h, hw] at hv
      cases hv
      rfl
    · intro h
      apply list_eq_of_slots a b hl
      intro j hj
      rw [List.getElem?_eq_getElem (by omega : j < List.length a), List.getElem?_eq_getElem hj]
      congr 1
      exact h ((j : Int)) _ _ (dat_nat a j (by omega)) (dat_nat b j hj)
  | succ n ih =>
    intro a b hs
    obtain ⟨hl, hrows⟩ := (same_shape_succ n a b).mp hs
    have hl2 : List.length a = List.length b := hl
    constructor
    · intro h c v w hv hw
      rw [h, hw] at hv
      cases hv
      rfl
    · intro h
      apply list_eq_of_slots a b hl2
      intro j hj
      have hja : j < List.length a := by omega
      rw [List.getElem?_eq_getElem hja, List.getElem?_eq_getElem hj]
      congr 1
      apply (ih (a[j]) (b[j]) (hrows j hja hj)).mpr
      intro c v w hv hw
      apply h ((j : Int), c) v w
      · rw [at_coords_succ_nat n a j hja c]; exact hv
      · rw [at_coords_succ_nat n b j hj c]; exact hw

end Dynamic

namespace Dynamic

/-! ## Leaf comparison of dynamic arrays -/

theorem dat_ok_slot {E : Type} (self : List E) (index : Int) (v : E)
    (h : at_ self index = .ok v) : ∃ i : Nat, index = (i : Int) ∧ self[i]? = some v := by
  by_cases hr : index < 0 ∨ (length self : Int) ≤ index
  · rw [dat_out self index hr] at h
    cases h
  · have h0 : 0 ≤ index := by omega
    obtain ⟨hlt, hat⟩ := dat_of_lt self index h0 (by omega)
    rw [hat] at h
    cases h
    exact ⟨index.toNat, (Int.toNat_of_nonneg h0).symm, List.getElem?_eq_getElem hlt⟩

theorem at_coords_ok_row {T : Type} (n : Nat) (a : DynamicArray T (n + 2)) (index : Int)
    (others : Coords n) (v : T) (h : at_coords (n + 1) a (index, others) = .ok v) :
    ∃ (i : Nat) (row : DynamicArray T (n + 1)), index = (i : Int) ∧
      (a : List (DynamicArray T (n + 1)))[i]? = some row ∧ at_coords n row others = .ok v := by
  by_cases hr : index ≥ (length a : Int) ∨ index < 0
  · rw [at_coords] at h
    simp only [check_input] at h
    rw [if_pos hr] at h
    cases h
  · have h0 : 0 ≤ index := by omega
    have hlt : index.toNat < List.length a := by
      apply (Int.toNat_lt h0).mpr
      unfold length at hr
      omega
    have hidx : index = (index.toNat : Int) := (Int.toNat_of_nonneg h0).symm
    rw [hidx, at_coords_succ_nat n a index.toNat hlt others] at h
    exact ⟨index.toNat, _, hidx, List.getElem?_eq_getElem hlt, h⟩

/-- On arrays of the same shape `all_equal` does not throw, and it returns
`true` exactly when `!=` is false on every pair of leaf elements at the same
coordinates. -/
theorem all_equal_leaves {T : Type} (ne : T → T → Bool) :
    ∀ (n : Nat) (a b : DynamicArray T (n + 1)), same_shape n a b = true →
      ∃ r, all_equal ne n a b = .ok r ∧
        (r = true ↔ ∀ (c : Coords n) (v w : T),
          at_coords n a c = .ok v → at_coords n b c = .ok w → ne v w = false) := by
  intro n
  induction n with
  | zero =>
    intro a b hs
    have hl : length a = length b := by simpa [same_shape] using hs
    have hl2 : List.length a = List.length b := hl
    rw [all_equal, if_neg (by simp [hl])]
    obtain ⟨r, hr, hiff⟩ := allLoop_ok
      (fun index =>
        match at_ a index, at_ b index with
        | .ok (l : T), .ok (r : T) => .ok (if ne l r then false else true)
        | .error e, _ => .error e
        | _, .error e => .error e)
      (fun i => ∀ x y : T, (a : List T)[i]? = some x → (b : List T)[i]? = some y →
        ne x y = false) (List.length a) (by
        intro i hi
        have hib : i < List.length b := by omega
        refine ⟨if ne (a[i]) (b[i]) then false else true, ?_, ?_⟩
        · simp only [dat_nat a i hi, dat_nat b i hib]
        · constructor
          · intro h x y hx hy
            rw [List.getElem?_eq_getElem hi] at hx
            rw [List.getElem?_eq_getElem hib] at hy
            cases hx
            cases hy
            cases hne : ne (a[i]) (b[i]) with
            | false => rfl
            | true => rw [hne] at h; simp at h
          · intro h
            rw [h _ _ (List.getElem?_eq_getElem hi) (List.getElem?_eq_getElem hib)]
            rfl)
      (List.length a) 0 (by omega)
    refine ⟨r, hr, ?_⟩
    rw [hiff]
    constructor
    · intro h c v w hv hw
      rw [at_coords] at hv hw
      obtain ⟨i, hi, hx⟩ := dat_ok_slot a c v hv
      obtain ⟨j, hj, hy⟩ := dat_ok_slot b c w hw
      have hij : i = j := by omega
      subst hij
      obtain ⟨hlt, _⟩ := List.getElem?_eq_some.mp hx
      exact h i (Nat.zero_le _) hlt v w hx hy
    · intro h i _ hi x y hx hy
      obtain ⟨h1, hx2⟩ := List.getElem?_eq_some.mp hx
      obtain ⟨h2, hy2⟩ := List.getElem?_eq_some.mp hy
      apply h ((i : Int)) x y
      · rw [at_coords, dat_nat a i h1, hx2]
      · rw [at_coords, dat_nat b i h2, hy2]
  | succ n ih =>
    intro a b hs
    obtain ⟨hl, hrows⟩ := (same_shape_succ n a b).mp hs
    have hl2 : List.length a = List.length b := hl
    rw [all_equal, if_neg (by simp [hl])]
    obtain ⟨r, hr, hiff⟩ := allLoop_ok
      (fun index =>
        match at_ a index, at_ b index with
        | .ok l, .ok r => all_equal ne n l r
        | .error e, _ => .error e
        | _, .error e => .error e)
      (fun i => ∀ x y : DynamicArray T (n + 1),
        (a : List (DynamicArray T (n + 1)))[i]? = some x →
        (b : List (DynamicArray T (n + 1)))[i]? = some y →
        ∀ (c : Coords n) (v w : T),
          at_coords n x c = .ok v → at_coords n y c = .ok w → ne v w = false)
      (List.length a) (by
        intro i hi
        have hib : i < List.length b := by omega
        obtain ⟨ri, hri, hiffi⟩ := ih (a[i]) (b[i]) (hrows i hi hib)
        refine ⟨ri, ?_, ?_⟩
        · simp only [dat_nat a i hi, dat_nat b i hib]
          exact hri
        · rw [hiffi]
          constructor
          · intro h x y hx hy
            rw [List.getElem?_eq_getElem hi] at hx
            rw [List.getElem?_eq_getElem hib] at hy
            cases hx
            cases hy
            exact h
          · intro h
            exact h _ _ (List.getElem?_eq_getElem hi) (List.getElem?_eq_getElem hib))
      (List.length a) 0 (by omega)
    refine ⟨r, hr, ?_⟩
    rw [hiff]
    constructor
    · intro h c v w hv hw
      obtain ⟨index, others⟩ := c
      obtain ⟨i, x, hi, hx, hv2⟩ := at_coords_ok_row n a index others v hv
      obtain ⟨j, y, hj, hy, hw2⟩ := at_coords_ok_row n b index others w hw
      have hij : i = j := by omega
      subst hij
      obtain ⟨hlt, _⟩ := List.getElem?_eq_some.mp hx
      exact h i (Nat.zero_le _) hlt x y hx hy others v w hv2 hw2
    · intro h i _ hi x y hx hy c v w hv hw
      obtain ⟨h1, hx2⟩ := List.getElem?_eq_some.mp hx
      obtain ⟨h2, hy2⟩ := List.getElem?_eq_some.mp hy
      apply h ((i : Int), c) v w
      · rw [at_coords_succ_nat n a i h1 c, hx2]; exact hv
      · rw [at_coords_succ_nat n b i h2 c, hy2]; exact hw

/-- Comparing an array with itself: `all_equal` returns, and it returns `true`
exactly when `x != x` is false for every leaf element `x`. -/
theorem all_equal_self_leaves {T : Type} (ne : T → T → Bool) (n : Nat)
    (a : DynamicArray T (n + 1)) :
    ∃ r, all_equal ne n a a = .ok r ∧
      (r = true ↔ ∀ (c : Coords n) (v : T), at_coords n a c = .ok v → ne v v = false) := by
  obtain ⟨r, hr, hiff⟩ := all_equal_leaves ne n a a (same_shape_refl n a)
  refine ⟨r, hr, hiff.trans ?_⟩
  constructor
  · intro h c v hv
    exact h c v v hv hv
  · intro h c v w hv hw
    rw [hv] at hw
    cases hw
    exact h c v hv

end Dynamic

/-! ## Filling and comparing dynamic arrays -/

/-- C6: `fill` on an allocated dynamic array of outer length `m > 0` with an
argument of outer length `n ≠ m` throws `MismatchedLength(m, n)` and leaves
the array as it was. -/
theorem fill_mismatched_length {T : Type} [Inhabited T] (NumDims : Nat)
    (a other : DynamicArray T (NumDims + 1)) (hm : 0 < Dynamic.length a)
    (hne : Dynamic.length other ≠ Dynamic.length a) :
    Dynamic.fill NumDims a other =
      .error (.MismatchedLength (Dynamic.length a) (Dynamic.length other), a) :=
  Dynamic.fill_throws_of_length_ne NumDims a other (by omega) (fun h => hne h.symm)

theorem fill_mismatched_length_witness :
    (0 < Dynamic.length Scenario.matrix_2x3 ∧
      Dynamic.length Scenario.matrix_3x3 ≠ Dynamic.length Scenario.matrix_2x3) ∧
    Dynamic.fill 1 Scenario.matrix_2x3 Scenario.matrix_3x3 =
      .error (.MismatchedLength (2 : Nat) (3 : Nat), Scenario.matrix_2x3) :=
  ⟨by decide, fill_mismatched_length 1 Scenario.matrix_2x3 Scenario.matrix_3x3
    (by decide) (by decide)⟩

/-- C7: `all_equal` on two dynamic arrays whose outermost lengths differ throws
`MismatchedLength(a.length(), b.length())`; it returns no boolean. -/
theorem all_equal_mismatched_length {T : Type} (ne : T → T → Bool) (NumDims : Nat)
    (a b : DynamicArray T (NumDims + 1)) (hne : Dynamic.length a ≠ Dynamic.length b) :
    Dynamic.all_equal ne NumDims a b =
      .error (.MismatchedLength (Dynamic.length a) (Dynamic.length b)) ∧
    ∀ r : Bool, Dynamic.all_equal ne NumDims a b ≠ .ok r := by
  have h := Dynamic.all_equal_throws_of_length_ne ne NumDims a b hne
  refine ⟨h, ?_⟩
  intro r hr
  rw [h] at hr
  cases hr

theorem all_equal_mismatched_length_witness :
    Dynamic.length Scenario.matrix_2x3 ≠ Dynamic.length Scenario.matrix_3x3 ∧
    (Dynamic.all_equal Scenario.int_ne 1 Scenario.matrix_2x3 Scenario.matrix_3x3 =
        .error (.MismatchedLength (2 : Nat) (3 : Nat)) ∧
      ∀ r : Bool,
        Dynamic.all_equal Scenario.int_ne 1 Scenario.matrix_2x3 Scenario.matrix_3x3 ≠ .ok r) :=
  ⟨by decide,
    all_equal_mismatched_length Scenario.int_ne 1 Scenario.matrix_2x3 Scenario.matrix_3x3
      (by decide)⟩

/-- C8: on two dynamic arrays of identical shape at every axis `all_equal` does
not throw, and it returns `true` exactly when every pair of leaf elements at
the same coordinates compares equal (`!=` is false on it); for an element
type whose `!=` is the negation of equality, exactly when every such pair is a
pair of equal elements. -/
theorem all_equal_same_shape_leaves {T : Type} (ne : T → T → Bool) (NumDims : Nat)
    (a b : DynamicArray T (NumDims + 1)) (hs : Dynamic.same_shape NumDims a b = true) :
    ∃ r, Dynamic.all_equal ne NumDims a b = .ok r ∧
      (r = true ↔ ∀ (c : Dynamic.Coords NumDims) (v w : T),
        Dynamic.at_coords NumDims a c = .ok v → Dynamic.at_coords NumDims b c = .ok w →
          ne v w = false) ∧
      ((∀ x y : T, ne x y = false ↔ x = y) →
        (r = true ↔ ∀ (c : Dynamic.Coords NumDims) (v w : T),
          Dynamic.at_coords NumDims a c = .ok v → Dynamic.at_coords NumDims b c = .ok w →
            v = w)) := by
  obtain ⟨r, hr, hiff⟩ := Dynamic.all_equal_leaves ne NumDims a b hs
  refine ⟨r, hr, hiff, ?_⟩
  intro hne
  rw [hiff]
  constructor
  · intro h c v w hv hw
    exact (hne v w).mp (h c v w hv hw)
  · intro h c v w hv hw
    exact (hne v w).mpr (h c v w hv hw)

theorem all_equal_same_shape_leaves_witness :
    Dynamic.same_shape 1 Scenario.matrix_2x3 Scenario.matrix_2x3_other = true ∧
    ∃ r, Dynamic.all_equal Scenario.int_ne 1 Scenario.matrix_2x3 Scenario.matrix_2x3_other =
        .ok r ∧
      (r = true ↔ ∀ (c : Dynamic.Coords 1) (v w : Int),
        Dynamic.at_coords 1 Scenario.matrix_2x3 c = .ok v →
          Dynamic.at_coords 1 Scenario.matrix_2x3_other c = .ok w →
            Scenario.int_ne v w = false) ∧
      ((∀ x y : Int, Scenario.int_ne x y = false ↔ x = y) →
        (r = true ↔ ∀ (c : Dynamic.Coords 1) (v w : Int),
          Dynamic.at_coords 1 Scenario.matrix_2x3 c = .ok v →
            Dynamic.at_coords 1 Scenario.matrix_2x3_other c = .ok w → v = w)) :=
  ⟨rfl,
    all_equal_same_shape_leaves Scenario.int_ne 1 Scenario.matrix_2x3 Scenario.matrix_2x3_other
      rfl⟩

namespace Static

/-! ## Static copying and comparison -/

theorem sat_nat {E : Type} {Dim : Nat} (self : Storage E Dim) (i : Nat) (h : i < self.val.length) :
    at_ self (i : Int) = .ok self.val[i] := by
  obtain ⟨_, h2⟩ := sat_of_lt self (i : Int) (by omega) (by have := self.property; omega)
  simpa using h2

theorem sstore_nat {E : Type} {Dim : Nat} (self : Storage E Dim) (i : Nat) (value : E)
    (h : i < Dim) :
    store self (i : Int) value = .ok ⟨self.val.set i value, by simp [self.property]⟩ := by
  unfold store
  rw [if_neg (by omega)]
  simp

theorem sput_nat {E : Type} {Dim : Nat} (self : Storage E Dim) (i : Nat) (value : E)
    (h : i < Dim) :
    put self (i : Int) value = .ok ⟨self.val.set i value, by simp [self.property]⟩ := by
  unfold put
  simp only [transform_index_of_nonneg Dim (i : Int) (by omega), check_input]
  rw [if_neg (by omega)]
  exact sstore_nat self i value h

/-- Assignment `operator=` of a static array leaves the array equal to its argument. -/
theorem assign_ok {T : Type} : ∀ (OtherDim : List Nat) (Dim : Nat)
    (self array : StaticArray T (Dim :: OtherDim)), assign Dim OtherDim self array = .ok array := by
  intro OtherDim
  induction OtherDim with
  | nil =>
    intro Dim self array
    have ha : array.val.length = Dim := array.property
    have hs : self.val.length = Dim := self.property
    obtain ⟨r, hr, hP⟩ : ∃ r, assign Dim [] self array = .ok r ∧
        CopyInv array.val self.val array.val.length r.val := by
      rw [assign]
      refine forLoop_invariant _ (fun i (s : Storage T Dim) => CopyInv array.val self.val i s.val)
        array.val.length ?_ (length array) 0 self (by simp [length, ha])
        (CopyInv.start array.val self.val (by omega))
      intro i s hi hP
      refine ⟨⟨s.val.set i (array.val[i]), by simp [s.property]⟩, ?_,
        CopyInv.step array.val self.val s.val i hi hP⟩
      simp only [sat_nat array i hi]
      exact sstore_nat s i _ (by omega)
    rw [hr]
    congr 1
    exact Subtype.ext (CopyInv.finish array.val self.val r.val hP)
  | cons d ds ih =>
    intro Dim self array
    have ha : array.val.length = Dim := array.property
    have hs : self.val.length = Dim := self.property
    obtain ⟨r, hr, hP⟩ : ∃ r, assign Dim (d :: ds) self array = .ok r ∧
        CopyInv array.val self.val array.val.length r.val := by
      rw [assign]
      refine forLoop_invariant _
        (fun i (s : Storage (StaticArray T (d :: ds)) Dim) => CopyInv array.val self.val i s.val)
        array.val.length ?_ (length array) 0 self (by simp [length, ha])
        (CopyInv.start array.val self.val (by omega))
      intro i s hi hP
      refine ⟨⟨s.val.set i (array.val[i]), by simp [s.property]⟩, ?_,
        CopyInv.step array.val self.val s.val i hi hP⟩
      obtain ⟨hlt, _⟩ := CopyInv.slot array.val self.val s.val i (by omega) hP
      simp only [sat_nat array i hi, subscript_nat s.val i hlt, ih]
      exact sstore_nat s i _ (by omega)
    rw [hr]
    congr 1
    exact Subtype.ext (CopyInv.finish array.val self.val r.val hP)

end Static

theorem identity_indices_length (L : Nat) : (identity_indices L).length = L := by
  simp [identity_indices]

theorem identity_indices_slot (L k : Nat) (hk : k < L) :
    (identity_indices L)[k]? = some (k : Int) := by
  simp [identity_indices, List.getElem?_map, List.getElem?_range hk]

namespace Static

/-! ## Static gather -/

/-- The static gather with an index vector of in-range non-negative values
returns the selected slots in the order of the index vector. -/
theorem gather_valid {T : Type} [Inhabited T] (OtherDim : List Nat) (Dim Size : Nat)
    (self : StaticArray T (Dim :: OtherDim)) (indices : StaticArray Int [Size])
    (target : List (StaticArray T OtherDim)) (hlen : target.length = Size)
    (h : ∀ k (hk : k < target.length),
      ∃ j : Nat, indices.val[k]? = some (j : Int) ∧ self.val[j]? = some target[k]) :
    ∃ r, gather Dim OtherDim Size self indices = .ok r ∧ r.val = target := by
  have hidx : indices.val.length = Size := indices.property
  have hself : self.val.length = Dim := self.property
  cases OtherDim with
  | nil =>
    obtain ⟨r, hr, hP⟩ : ∃ r, gather Dim [] Size self indices = .ok r ∧
        CopyInv target (StaticArray.uninit (T := T) [Size]).val target.length r.val := by
      rw [gather]
      refine forLoop_invariant _
        (fun i (s : Storage T Size) => CopyInv target (StaticArray.uninit (T := T) [Size]).val i s.val)
        target.length ?_ Size 0 _ (by omega) (CopyInv.start _ _ ?_)
      · intro i s hi hP
        obtain ⟨j, hj1, hj2⟩ := h i hi
        obtain ⟨hi2, hj1⟩ := List.getElem?_eq_some.mp hj1
        obtain ⟨hj3, hj2⟩ := List.getElem?_eq_some.mp hj2
        refine ⟨⟨s.val.set i (target[i]), by simp [s.property]⟩, ?_,
          CopyInv.step target _ s.val i hi hP⟩
        simp only [sat_nat indices i hi2, hj1, subscript_nat self.val j hj3, hj2]
        exact sput_nat s i _ (by omega)
      · rw [(StaticArray.uninit (T := T) [Size]).property, hlen]
    exact ⟨r, hr, CopyInv.finish target _ r.val hP⟩
  | cons d ds =>
    obtain ⟨r, hr, hP⟩ : ∃ r, gather Dim (d :: ds) Size self indices = .ok r ∧
        CopyInv target (StaticArray.uninit (T := T) (Size :: d :: ds)).val target.length r.val := by
      rw [gather]
      refine forLoop_invariant _
        (fun i (s : Storage (StaticArray T (d :: ds)) Size) =>
          CopyInv target (StaticArray.uninit (T := T) (Size :: d :: ds)).val i s.val)
        target.length ?_ Size 0 _ (by omega) (CopyInv.start _ _ ?_)
      · intro i s hi hP
        obtain ⟨j, hj1, hj2⟩ := h i hi
        obtain ⟨hi2, hj1⟩ := List.getElem?_eq_some.mp hj1
        obtain ⟨hj3, hj2⟩ := List.getElem?_eq_some.mp hj2
        have hs : i < s.val.length := by rw [s.property]; omega
        refine ⟨⟨s.val.set i (target[i]), by simp [s.property]⟩, ?_,
          CopyInv.step target _ s.val i hi hP⟩
        simp only [sat_nat indices i hi2, hj1, transform_index_of_nonneg Dim (j : Int) (by omega),
          check_input]
        rw [if_neg (by omega)]
        simp only [subscript_nat self.val j hj3, hj2, sat_nat s i hs, assign_ok]
        exact sput_nat s i _ (by omega)
      · rw [(StaticArray.uninit (T := T) (Size :: d :: ds)).property, hlen]
    exact ⟨r, hr, CopyInv.finish target _ r.val hP⟩

theorem gather_identity_static {T : Type} [Inhabited T] (OtherDim : List Nat) (L : Nat)
    (a : StaticArray T (L :: OtherDim)) :
    gather L OtherDim L a ⟨identity_indices L, identity_indices_length L⟩ = .ok a := by
  obtain ⟨r, hr, hv⟩ := gather_valid OtherDim L L a
    ⟨identity_indices L, identity_indices_length L⟩ a.val a.property (by
      intro k hk
      have hk2 : k < L := by have := a.property; omega
      exact ⟨k, identity_indices_slot L k hk2, List.getElem?_eq_getElem hk⟩)
  rw [hr]
  congr 1
  exact Subtype.ext hv

end Static

namespace Dynamic

/-! ## Dynamic gather -/

theorem assign_vector_ok {T : Type} [Inhabited T] (self vector : DynamicArray T 1)
    (h : length self = 0 ∨ length self = length vector) :
    assign_vector self vector = .ok vector := by
  unfold assign_vector
  simp only []
  generalize hs : (if length self = 0 then allocate 0 self (length vector) else self) = s
  have hl : length s = length vector := by
    rw [← hs]
    by_cases h0 : length self = 0
    · rw [if_pos h0]
      simp [allocate, length]
    · rw [if_neg h0]
      cases h with
      | inl h => exact absurd h h0
      | inr h => exact h
  have hloop := forLoop_copy_element vector s hl
  simp only [check_length_matches, hl, ne_eq, not_true_eq_false, if_false]
  rw [hl] at hloop
  exact hloop

theorem assign_unallocated {T : Type} [Inhabited T] (n : Nat) (a other : DynamicArray T (n + 1))
    (ha : length a = 0) : assign n a other = .ok other := by
  cases n with
  | zero => exact assign_vector_ok a other (Or.inl ha)
  | succ n =>
    rw [assign]
    exact fill_of_unallocated (n + 1) a other ha

/-- The dynamic gather with an index vector of in-range non-negative values
returns the selected slots in the order of the index vector. -/
theorem gather_valid_dynamic {T : Type} [Inhabited T] (n : Nat) (self : DynamicArray T (n + 1))
    (indices : DynamicArray Int 1) (target : List (DynamicArray T n))
    (hlen : target.length = List.length indices)
    (h : ∀ k (hk : k < target.length),
      ∃ j : Nat, (indices : List Int)[k]? = some (j : Int) ∧
        (self : List (DynamicArray T n))[j]? = some target[k]) :
    gather n self indices = .ok target := by
  cases n with
  | zero =>
    obtain ⟨r, hr, hP⟩ : ∃ r, gather 0 self indices = .ok r ∧
        CopyInv target (List.replicate (length indices) (default : T)) target.length r := by
      rw [gather]
      refine forLoop_invariant _
        (fun i (s : List T) => CopyInv target (List.replicate (length indices) (default : T)) i s)
        target.length ?_ _ 0 _ (by simp [length, hlen]) (CopyInv.start _ _ (by simp [length, hlen]))
      intro i s hi hP
      obtain ⟨j, hj1, hj2⟩ := h i hi
      obtain ⟨hi2, hj1⟩ := List.getElem?_eq_some.mp hj1
      obtain ⟨hj3, hj2⟩ := List.getElem?_eq_some.mp hj2
      refine ⟨s.set i (target[i]), ?_, CopyInv.step target _ s i hi hP⟩
      simp only [dat_nat indices i hi2, hj1, subscript_nat self j hj3, hj2]
      exact put_nat s i _ (by rw [hP.1]; exact hi)
    rw [hr, CopyInv.finish target _ r hP]
  | succ n =>
    obtain ⟨r, hr, hP⟩ : ∃ r, gather (n + 1) self indices = .ok r ∧
        CopyInv target (List.replicate (length indices) (DynamicArray.fresh (T := T) (n + 1)))
          target.length r := by
      rw [gather]
      refine forLoop_invariant _
        (fun i (s : List (DynamicArray T (n + 1))) =>
          CopyInv target (List.replicate (length indices) (DynamicArray.fresh (T := T) (n + 1))) i s)
        target.length ?_ _ 0 _ (by simp [length, hlen])
        (CopyInv.start _ _ (by simp [length, hlen]))
      intro i s hi hP
      obtain ⟨j, hj1, hj2⟩ := h i hi
      obtain ⟨hi2, hj1⟩ := List.getElem?_eq_some.mp hj1
      obtain ⟨hj3, hj2⟩ := List.getElem?_eq_some.mp hj2
      obtain ⟨hlt, hslot⟩ := CopyInv.slot target _ s i (by simp [length]; omega) hP
      have hfresh : length (s[i]) = 0 := by
        rw [hslot]
        simp [length, DynamicArray.fresh]
      refine ⟨s.set i (target[i]), ?_, CopyInv.step target _ s i hi hP⟩
      simp only [dat_nat indices i hi2, hj1, subscript_nat self j hj3, hj2, dat_nat s i hlt,
        assign_unallocated n _ _ hfresh]
      exact put_nat s i _ hlt
    rw [hr, CopyInv.finish target _ r hP]

theorem gather_identity_dynamic {T : Type} [Inhabited T] (n : Nat) (a : DynamicArray T (n + 1)) :
    gather n a (identity_indices (length a)) = .ok a := by
  apply gather_valid_dynamic n a (identity_indices (length a)) a
  · rw [identity_indices_length]; rfl
  · intro k hk
    exact ⟨k, identity_indices_slot _ k hk, List.getElem?_eq_getElem hk⟩

end Dynamic

/-! ## Gather indexing -/

/-- C10 fails on the one-dimensional static class: on
`StaticVector<int,4>{1,2,3,4}` ordinary indexing gives `at(-1) = 4` and
`at(4)` throws `OutOfRange(4,4)`, but the gather with the index vector `{-1}`
or `{4}` reads `data_[-1]` or `data_[4]` without normalisation and without a
bounds check.  The class with more dimensions normalises and checks: on
`{{1,2,3},{4,5,6}}` the gather with `{-1}` gives the last row and the gather
with `{2}` throws `OutOfRange(2,2)`. -/
theorem static_vector_gather_unchecked :
    Static.at_ Scenario.static_vector (-1) = .ok (4 : Int) ∧
    Static.gather 4 [] 1 Scenario.static_vector ⟨[-1], rfl⟩ = .error .OutOfBounds ∧
    Static.at_ Scenario.static_vector 4 = .error (.OutOfRange 4 4) ∧
    Static.gather 4 [] 1 Scenario.static_vector ⟨[4], rfl⟩ = .error .OutOfBounds ∧
    Static.gather 2 [3] 1 Scenario.static_matrix ⟨[-1], rfl⟩ = .ok ⟨[⟨[4, 5, 6], rfl⟩], rfl⟩ ∧
    Static.gather 2 [3] 1 Scenario.static_matrix ⟨[2], rfl⟩ = .error (.OutOfRange 2 2) :=
  ⟨rfl, rfl, rfl, rfl, rfl, rfl⟩

/-! ## Loops that may throw -/

/-- A loop whose every turn either keeps the invariant or throws with a
described exception ends in one of these two ways. -/
theorem forLoop_cases {ε σ : Type} (body : Nat → σ → Except ε σ) (P : Nat → σ → Prop)
    (Q : Nat → ε → Prop) (n : Nat)
    (hstep : ∀ i s, i < n → P i s →
      (∃ s2, body i s = .ok s2 ∧ P (i + 1) s2) ∨ (∃ x, body i s = .error x ∧ Q i x)) :
    ∀ (count index : Nat) (s : σ), index + count = n → P index s →
      (∃ s2, forLoop body count index s = .ok s2 ∧ P n s2) ∨
      (∃ x i, index ≤ i ∧ i < n ∧ forLoop body count index s = .error x ∧ Q i x) := by
  intro count
  induction count with
  | zero =>
    intro index s hn hP
    have : index = n := by omega
    subst this
    exact Or.inl ⟨s, rfl, hP⟩
  | succ c ih =>
    intro index s hn hP
    rcases hstep index s (by omega) hP with ⟨s2, hb, hP2⟩ | ⟨x, hb, hQ⟩
    · rcases ih (index + 1) s2 (by omega) hP2 with ⟨s3, hl, hP3⟩ | ⟨x, i, h1, h2, hl, hQ⟩
      · refine Or.inl ⟨s3, ?_, hP3⟩
        simp only [forLoop, hb]
        exact hl
      · refine Or.inr ⟨x, i, by omega, h2, ?_, hQ⟩
        simp only [forLoop, hb]
        exact hl
    · refine Or.inr ⟨x, index, le_refl _, by omega, ?_, hQ⟩
      simp only [forLoop, hb]

theorem CopyInv.set_failed {E : Type} (target init s : List E) (k : Nat) (row2 : E)
    (h : CopyInv target init k s) :
    (s.set k row2).length = target.length ∧
    (∀ j, j < k → (s.set k row2)[j]? = target[j]?) ∧
    (∀ j, k < j → (s.set k row2)[j]? = init[j]?) := by
  obtain ⟨h1, h2, h3⟩ := h
  refine ⟨by simp [h1], ?_, ?_⟩
  · intro j hj
    rw [List.getElem?_set_ne (by omega)]
    exact h2 j hj
  · intro j hj
    rw [List.getElem?_set_ne (by omega)]
    exact h3 j (by omega)

namespace Dynamic

/-! ## Outcome of a dynamic fill -/

/-- The row loop of `fill` either copies every row or stops at the first row
whose own `fill` throws, with the rows before it overwritten and the rows
after it untouched. -/
theorem forLoop_fill_row_cases {S : Type} (fillSub : S → S → Except (Error × S) S)
    (array init : List S) (hlen : init.length = array.length)
    (hsub : ∀ row src r, fillSub row src = .ok r → r = src) :
    forLoop (fill_row fillSub array) (length init) 0 init = .ok array ∨
    ∃ e s k row src row2,
      forLoop (fill_row fillSub array) (length init) 0 init = .error (e, s) ∧
      k < init.length ∧ init[k]? = some row ∧ array[k]? = some src ∧
      fillSub row src = .error (e, row2) ∧ s.length = init.length ∧
      (∀ j, j < k → s[j]? = array[j]?) ∧ (∀ j, k < j → s[j]? = init[j]?) := by
  have key := forLoop_cases (fill_row fillSub array) (CopyInv array init)
    (fun i x => ∃ row src row2 s, init[i]? = some row ∧ array[i]? = some src ∧
      fillSub row src = .error (x.1, row2) ∧ x.2 = List.set s i row2 ∧ CopyInv array init i s)
    array.length (by
      intro i s hi hP
      obtain ⟨hlt, hslot⟩ := CopyInv.slot array init s i (by omega) hP
      have hbody : fill_row fillSub array i s =
          match fillSub (init[i]) (array[i]) with
          | .error (e, row2) => .error (e, s.set i row2)
          | .ok row2 => .ok (s.set i row2) := by
        unfold fill_row
        rw [dat_nat array i hi]
        simp only
        rw [subscript_nat s i hlt]
        simp only
        rw [hslot]
        cases hf : fillSub (init[i]) (array[i]) with
        | error x => rfl
        | ok row2 =>
          simp only
          rw [store_nat s i _ hlt]
      cases hf : fillSub (init[i]) (array[i]) with
      | error x =>
        right
        refine ⟨(x.1, s.set i x.2), ?_, init[i], array[i], x.2, s,
          List.getElem?_eq_getElem _, List.getElem?_eq_getElem _, ?_, rfl, hP⟩
        · rw [hbody, hf]
        · rw [hf]
      | ok row2 =>
        left
        have hr := hsub _ _ _ hf
        subst hr
        refine ⟨s.set i (array[i]), ?_, CopyInv.step array init s i hi hP⟩
        rw [hbody, hf])
    array.length 0 init (by omega) (CopyInv.start array init hlen)
  unfold length
  rw [hlen]
  rcases key with ⟨s2, h1, h2⟩ | ⟨x, i, _, hi, h1, row, src, row2, s, hr, hs, hf, hx, hP⟩
  · left
    rw [h1, CopyInv.finish array init s2 h2]
  · right
    obtain ⟨hl, hb, ha⟩ := CopyInv.set_failed array init s i row2 hP
    refine ⟨x.1, x.2, i, row, src, row2, h1, by omega, hr, hs, hf, ?_, ?_, ?_⟩
    · rw [hx, hl]
    · rw [hx]; exact hb
    · rw [hx]; exact ha

theorem fill_vector_cases {T : Type} [Inhabited T] (self vector : DynamicArray T 1) :
    fill_vector self vector = .ok vector ∨
    (length self ≠ 0 ∧ length self ≠ length vector ∧
      fill_vector self vector =
        .error (.MismatchedLength (length self) (length vector), self)) := by
  by_cases h0 : length self = 0
  · exact Or.inl (fill_vector_ok self vector (Or.inl h0))
  · by_cases h1 : length self = length vector
    · exact Or.inl (fill_vector_ok self vector (Or.inr h1))
    · exact Or.inr ⟨h0, h1, fill_vector_throws_of_length_ne self vector h0 h1⟩

/-- What `fill` does in full: when it returns, the array is the argument; when
it throws, the exception is a `MismatchedLength`, the array was allocated and
keeps its outer length, it is untouched when the outer lengths differ, and
otherwise some row `k` threw, with the rows before `k` overwritten and the rows
after `k` untouched. -/
theorem fill_outcome {T : Type} [Inhabited T] :
    ∀ (n : Nat) (a other : DynamicArray T (n + 1)),
      (∀ r, fill n a other = .ok r → r = other) ∧
      (∀ e a2, fill n a other = .error (e, a2) →
        List.length a2 = List.length a ∧ 0 < length a ∧
        (∃ l r, e = Error.MismatchedLength l r) ∧
        (length a ≠ length other →
          a2 = a ∧ e = .MismatchedLength (length a) (length other)) ∧
        (length a = length other → 0 < n ∧
          ∃ k, k < length a ∧
            (∀ j, j < k →
              (a2 : List (DynamicArray T n))[j]? = (other : List (DynamicArray T n))[j]?) ∧
            (∀ j, k < j →
              (a2 : List (DynamicArray T n))[j]? = (a : List (DynamicArray T n))[j]?))) := by
  intro n
  induction n with
  | zero =>
    intro a other
    have hf : fill 0 a other = fill_vector a other := rfl
    rw [hf]
    rcases fill_vector_cases a other with h | ⟨h0, h1, h⟩
    · rw [h]
      constructor
      · intro r hr
        cases hr
        rfl
      · intro e a2 he
        cases he
    · rw [h]
      constructor
      · intro r hr
        cases hr
      · intro e a2 he
        cases he
        refine ⟨rfl, by omega, ⟨_, _, rfl⟩, fun _ => ⟨rfl, rfl⟩, fun h2 => absurd h2 h1⟩
  | succ n ih =>
    intro a other
    by_cases h0 : length a = 0
    · rw [fill_of_unallocated (n + 1) a other h0]
      constructor
      · intro r hr
        cases hr
        rfl
      · intro e a2 he
        cases he
    · by_cases h1 : length a = length other
      · have hf : fill (n + 1) a other =
            forLoop (fill_row (fill n) other) (length a) 0 a := by
          rw [fill, if_neg h0, if_neg (by simp [h1])]
        rw [hf]
        rcases forLoop_fill_row_cases (fill n) other a h1 (fun row src r => (ih row src).1 r) with
          h | ⟨e, s, k, row, src, row2, h, hk, hrow, hsrc, hsub, hlen, hb, ha⟩
        · rw [h]
          constructor
          · intro r hr
            cases hr
            rfl
          · intro e a2 he
            cases he
        · rw [h]
          constructor
          · intro r hr
            cases hr
          · intro e2 a2 he
            cases he
            obtain ⟨_, _, hml, _, _⟩ := (ih row src).2 e row2 hsub
            exact ⟨hlen, by omega, hml, fun h2 => absurd h1 h2,
              fun _ => ⟨Nat.succ_pos n, k, hk, hb, ha⟩⟩
      · have hf : fill (n + 1) a other =
            .error (.MismatchedLength (length a) (length other), a) :=
          fill_throws_of_length_ne (n + 1) a other h0 h1
        rw [hf]
        constructor
        · intro r hr
          cases hr
        · intro e a2 he
          cases he
          exact ⟨rfl, by omega, ⟨_, _, rfl⟩, fun _ => ⟨rfl, rfl⟩, fun h2 => absurd h2 h1⟩

/-- The dynamic gather with in-range indices succeeds, has the length of the
index vector, and its slot `k` is what ordinary indexing gives at
`indices[k]`. -/
theorem gather_in_range {T : Type} [Inhabited T] (n : Nat) (a : DynamicArray T (n + 1))
    (indices : DynamicArray Int 1)
    (hin : ∀ k (hk : k < List.length indices),
      0 ≤ (indices : List Int)[k] ∧ (indices : List Int)[k] < length a) :
    ∃ r, gather n a indices = .ok r ∧ length r = length indices ∧
      ∀ k (hk : k < List.length indices),
        at_ r (k : Int) = at_ a ((indices : List Int)[k]) ∧
        ∃ v, at_ r (k : Int) = .ok v := by
  let target : List (DynamicArray T n) :=
    List.map (fun j : Int => ((a : List (DynamicArray T n))[j.toNat]?).getD (DynamicArray.fresh n))
      indices
  have htl : target.length = List.length indices := by simp [target]
  have hslot : ∀ k (hk : k < List.length indices),
      ∃ hj : ((indices : List Int)[k]).toNat < List.length a,
        target[k]? = some ((a : List (DynamicArray T n))[((indices : List Int)[k]).toNat]) := by
    intro k hk
    obtain ⟨h0, h1⟩ := hin k hk
    have hj : ((indices : List Int)[k]).toNat < List.length a := by
      exact (Int.toNat_lt h0).mpr h1
    refine ⟨hj, ?_⟩
    simp [target, List.getElem?_eq_getElem hk, List.getElem?_eq_getElem hj]
  have hg := gather_valid_dynamic n a indices target htl (by
    intro k hk
    have hk2 : k < List.length indices := by omega
    obtain ⟨h0, h1⟩ := hin k hk2
    obtain ⟨hj, hs⟩ := hslot k hk2
    refine ⟨((indices : List Int)[k]).toNat, ?_, ?_⟩
    · rw [List.getElem?_eq_getElem hk2, Int.toNat_of_nonneg h0]
    · rw [List.getElem?_eq_getElem hj, ← hs, List.getElem?_eq_getElem hk])
  refine ⟨target, hg, htl, ?_⟩
  intro k hk
  obtain ⟨h0, h1⟩ := hin k hk
  obtain ⟨hj, hs⟩ := hslot k hk
  obtain ⟨_, hat⟩ := dat_of_lt a _ h0 h1
  have hk3 : k < target.length := by omega
  have hr := dat_nat target k hk3
  rw [List.getElem?_eq_getElem hk3] at hs
  rw [hr, hat, Option.some.inj hs]
  exact ⟨rfl, _, rfl⟩

end Dynamic

/-! ## Dynamic gather, failing fill, assignment -/

/-- C11 fails on out-of-range indices: with every index in `[0, n)` the dynamic
gather has the length of the index vector and its slot `k` is `a.at(idx[k])`,
but an index outside `[0, n)` is used in the raw subscript `data_[...]`
without a bounds check.  On `DynamicVector<int>{1,2,3}` ordinary indexing
throws `OutOfRange(3,3)` and `OutOfRange(-1,3)` while the gather with `{3}` or
`{-1}` reads outside the storage; the same on a 2×3 matrix with `{2}`. -/
theorem dynamic_gather_unchecked :
    (∀ (T : Type) [Inhabited T] (NumDims : Nat) (a : DynamicArray T (NumDims + 1))
      (idx : DynamicArray Int 1),
      (∀ k (hk : k < List.length idx),
        0 ≤ (idx : List Int)[k] ∧ (idx : List Int)[k] < Dynamic.length a) →
      ∃ r, Dynamic.gather NumDims a idx = .ok r ∧ Dynamic.length r = Dynamic.length idx ∧
        ∀ k (hk : k < List.length idx),
          Dynamic.at_ r (k : Int) = Dynamic.at_ a ((idx : List Int)[k]) ∧
          ∃ v, Dynamic.at_ r (k : Int) = .ok v) ∧
    Dynamic.at_ Scenario.dynamic_vector 3 = .error (.OutOfRange 3 3) ∧
    Dynamic.gather 0 Scenario.dynamic_vector ([3] : List Int) = .error .OutOfBounds ∧
    Dynamic.at_ Scenario.dynamic_vector (-1) = .error (.OutOfRange (-1) 3) ∧
    Dynamic.gather 0 Scenario.dynamic_vector ([-1] : List Int) = .error .OutOfBounds ∧
    Dynamic.at_ Scenario.matrix_2x3 2 = .error (.OutOfRange 2 2) ∧
    Dynamic.gather 1 Scenario.matrix_2x3 ([2] : List Int) = .error .OutOfBounds :=
  ⟨fun _ _ NumDims a idx hin => Dynamic.gather_in_range NumDims a idx hin,
    rfl, rfl, rfl, rfl, rfl, rfl⟩

/-- C12 refuted: `{{1,2},{3}}.fill({{5,6},{7,8}})` throws `MismatchedLength(1,2)`
from its second row after the first row has been overwritten with `{5,6}`. -/
theorem fill_failure_state_counterexample :
    Dynamic.fill 1 Scenario.ragged_matrix Scenario.matrix_2x2 =
      .error (.MismatchedLength 1 2, ([[5, 6], [3]] : List (List Int))) ∧
    ([[5, 6], [3]] : List (List Int)) ≠ Scenario.ragged_matrix :=
  ⟨rfl, by decide⟩

/-- C14: on a dynamic array of any dimension count, allocated or not,
assignment and `fill` have the same outcome for every argument: the same
exception with the array in the same state, or the same final state. -/
theorem assign_same_as_fill {T : Type} [Inhabited T] (NumDims : Nat)
    (a other : DynamicArray T (NumDims + 1)) :
    Dynamic.assign NumDims a other = Dynamic.fill NumDims a other := by
  cases NumDims with
  | zero => rfl
  | succ n => rfl

/-! ## Loops over rows -/

theorem forEach_invariant {ε α σ : Type} (body : Nat → α → σ → Except ε σ)
    (P : Nat → σ → Prop) :
    ∀ (values : List α) (index : Nat) (s : σ),
      (∀ i value s, values[i]? = some value → P (index + i) s →
        ∃ s2, body (index + i) value s = .ok s2 ∧ P (index + i + 1) s2) →
      P index s →
      ∃ s2, forEach body values index s = .ok s2 ∧ P (index + values.length) s2 := by
  intro values
  induction values with
  | nil =>
    intro index s _ hP
    exact ⟨s, rfl, by simpa using hP⟩
  | cons v rest ih =>
    intro index s hstep hP
    obtain ⟨s2, hb, hP2⟩ := hstep 0 v s (by simp) (by simpa using hP)
    simp only [Nat.add_zero] at hb hP2
    obtain ⟨s3, hl, hP3⟩ := ih (index + 1) s2 (by
      intro i value s hv hPi
      have := hstep (i + 1) value s (by simpa using hv) (by
        have h : index + (i + 1) = index + 1 + i := by omega
        rw [h]; exact hPi)
      have h : index + (i + 1) = index + 1 + i := by omega
      rw [h] at this
      exact this) hP2
    refine ⟨s3, ?_, ?_⟩
    · simp only [forEach, hb]
      exact hl
    · have h : index + (v :: rest).length = index + 1 + rest.length := by
        simp; omega
      rw [h]
      exact hP3

/-- A property of the state that every turn keeps, whether it returns or
throws, holds for the state in which the loop is left. -/
theorem forLoop_preserves {σ : Type} (body : Nat → σ → Except (Error × σ) σ) (P : σ → Prop)
    (hstep : ∀ i s, P s → P (final_state (body i s))) :
    ∀ (count index : Nat) (s : σ), P s → P (final_state (forLoop body count index s)) := by
  intro count
  induction count with
  | zero => intro index s hP; exact hP
  | succ c ih =>
    intro index s hP
    have h := hstep index s hP
    cases hb : body index s with
    | error x =>
      rw [hb] at h
      simp only [forLoop, hb]
      exact h
    | ok s2 =>
      rw [hb] at h
      simp only [forLoop, hb]
      exact ih (index + 1) s2 h

theorem forEach_preserves {α σ : Type} (body : Nat → α → σ → Except (Error × σ) σ)
    (P : σ → Prop) (hstep : ∀ i v s, P s → P (final_state (body i v s))) :
    ∀ (values : List α) (index : Nat) (s : σ),
      P s → P (final_state (forEach body values index s)) := by
  intro values
  induction values with
  | nil => intro index s hP; exact hP
  | cons v rest ih =>
    intro index s hP
    have h := hstep index v s hP
    cases hb : body index v s with
    | error x =>
      rw [hb] at h
      simp only [forEach, hb]
      exact h
    | ok s2 =>
      rw [hb] at h
      simp only [forEach, hb]
      exact ih (index + 1) s2 h

namespace Dynamic

theorem store_ok_length {E : Type} (data_ : List E) (index : Int) (value : E) (d : List E)
    (h : store data_ index value = .ok d) : d.length = data_.length := by
  unfold store at h
  split at h
  · cases h
  · cases h
    simp

theorem on_row_length {S : Type} (member : S → Except (Error × S) S) (index : Nat)
    (data_ : List S) : (final_state (on_row member index data_)).length = data_.length := by
  unfold on_row
  cases h1 : subscript data_ (index : Int) with
  | error e => rfl
  | ok row =>
    simp only
    cases h2 : member row with
    | error x => simp [final_state]
    | ok row2 =>
      simp only
      cases h3 : store data_ (index : Int) row2 with
      | error e => rfl
      | ok d => exact store_ok_length data_ _ _ d h3

theorem store_element_length {T : Type} (index : Nat) (value : T) (data_ : DynamicArray T 1) :
    List.length (final_state (store_element index value data_)) = List.length data_ := by
  unfold store_element
  cases h3 : store data_ (index : Int) value with
  | error e => rfl
  | ok d => exact store_ok_length data_ _ _ d h3

theorem on_row_ok {S : Type} (member : S → Except (Error × S) S) (i : Nat) (data_ : List S)
    (hi : i < data_.length) (row2 : S) (h : member data_[i] = .ok row2) :
    on_row member i data_ = .ok (data_.set i row2) := by
  unfold on_row
  rw [subscript_nat data_ i hi]
  simp only [h]
  rw [store_nat data_ i _ hi]

/-- A loop that calls on every row a member that returns: the loop returns,
the length is kept, and every row is a result of its call. -/
theorem forLoop_rows {S : Type} (body : Nat → List S → Except (Error × List S) (List S))
    (member : Nat → S → Except (Error × S) S) (R : Nat → S → Prop) (n : Nat)
    (hbody : ∀ i d, i < n → List.length d = n → body i d = on_row (member i) i d)
    (hmem : ∀ i row, i < n → ∃ row2, member i row = .ok row2 ∧ R i row2)
    (init : List S) (hinit : init.length = n) :
    ∃ s, forLoop body n 0 init = .ok s ∧ s.length = n ∧
      ∀ i, i < n → ∃ row, s[i]? = some row ∧ R i row := by
  obtain ⟨s, hs, hl, hP⟩ := forLoop_invariant body
    (fun i (s : List S) => s.length = n ∧ ∀ j, j < i → ∃ row, s[j]? = some row ∧ R j row)
    n (by
      intro i s hi hP
      obtain ⟨hl, hrows⟩ := hP
      have his : i < s.length := by omega
      obtain ⟨row2, hm, hR⟩ := hmem i (s[i]) hi
      refine ⟨s.set i row2, ?_, by simp [hl], ?_⟩
      · rw [hbody i s hi hl]
        exact on_row_ok (member i) i s his row2 hm
      · intro j hj
        by_cases hji : j = i
        · subst hji
          exact ⟨row2, List.getElem?_set_self his, hR⟩
        · rw [List.getElem?_set_ne (by omega)]
          exact hrows j (by omega))
    n 0 init (by omega) ⟨hinit, fun j hj => by omega⟩
  exact ⟨s, hs, hl, hP⟩

/-! ## Allocation -/

theorem has_shape_succ {T : Type} (n : Nat) (len : Nat) (others : Lengths n)
    (a : DynamicArray T (n + 2)) :
    has_shape (n + 1) (len, others) a = true ↔
      length a = len ∧ ∀ (i : Nat) (row : DynamicArray T (n + 1)),
        (a : List (DynamicArray T (n + 1)))[i]? = some row →
        has_shape n others row = true := by
  rw [has_shape]
  simp only [Bool.and_eq_true, decide_eq_true_eq, List.all_eq_true]
  constructor
  · rintro ⟨hl, hall⟩
    refine ⟨hl, ?_⟩
    intro i row hrow
    obtain ⟨hi, hrow⟩ := List.getElem?_eq_some.mp hrow
    rw [← hrow]
    exact hall _ (List.getElem_mem hi)
  · rintro ⟨hl, hall⟩
    refine ⟨hl, ?_⟩
    intro x hx
    obtain ⟨i, hi, rfl⟩ := List.mem_iff_getElem.mp hx
    exact hall i _ (List.getElem?_eq_getElem hi)

/-- The row loop of `allocate` and of the sized constructor gives every row the
rectangular shape of the remaining lengths, whatever the rows were. -/
theorem allocate_rows {T : Type} [Inhabited T] (n : Nat) (others : Lengths n)
    (ih : ∀ row : DynamicArray T (n + 1),
      ∃ row2, allocate_lengths n row others = .ok row2 ∧ has_shape n others row2 = true)
    (init : DynamicArray T (n + 2)) :
    ∃ s, forLoop (on_row (fun row => allocate_lengths n row others)) (length init) 0 init = .ok s ∧
      has_shape (n + 1) (length init, others) s = true := by
  obtain ⟨s, hs, hl, hrows⟩ := forLoop_rows (on_row (fun row => allocate_lengths n row others))
    (fun _ row => allocate_lengths n row others) (fun _ row => has_shape n others row = true)
    (List.length init) (fun _ _ _ _ => rfl) (fun _ row _ => ih row) init rfl
  refine ⟨s, hs, ?_⟩
  rw [has_shape_succ]
  refine ⟨hl, ?_⟩
  intro i row hrow
  have hi : i < List.length init := by
    obtain ⟨hi, _⟩ := List.getElem?_eq_some.mp hrow
    have : List.length s = List.length init := hl
    omega
  obtain ⟨row3, h3, hR⟩ := hrows i hi
  rw [hrow] at h3
  cases h3
  exact hR

theorem allocate_lengths_ok {T : Type} [Inhabited T] :
    ∀ (n : Nat) (lens : Lengths n) (a : DynamicArray T (n + 1)),
      ∃ a2, allocate_lengths n a lens = .ok a2 ∧ has_shape n lens a2 = true := by
  intro n
  induction n with
  | zero =>
    intro lens a
    exact ⟨allocate 0 a lens, rfl, by simp [has_shape, allocate, length]⟩
  | succ n ih =>
    rintro ⟨len, others⟩ a
    obtain ⟨s, hs, hsh⟩ := allocate_rows n others (ih others) (allocate (n + 1) a len)
    have hl : length (allocate (n + 1) a len) = len := by simp [allocate, length]
    rw [hl] at hs hsh
    refine ⟨s, ?_, hsh⟩
    rw [allocate_lengths]
    simp only [hl]
    exact hs

theorem sized_ok {T : Type} [Inhabited T] :
    ∀ (n : Nat) (lens : Lengths n),
      ∃ a2 : DynamicArray T (n + 1), sized n lens = .ok a2 ∧ has_shape n lens a2 = true := by
  intro n
  cases n with
  | zero =>
    intro lens
    exact ⟨List.replicate lens (default : T), rfl, by simp [has_shape, length]⟩
  | succ n =>
    rintro ⟨len, others⟩
    obtain ⟨s, hs, hsh⟩ := allocate_rows n others (allocate_lengths_ok n others)
      (List.replicate len (DynamicArray.fresh (T := T) (n + 1)))
    have hl : length (List.replicate len (DynamicArray.fresh (T := T) (n + 1))) = len := by
      simp [length]
    rw [hl] at hs hsh
    refine ⟨s, ?_, hsh⟩
    rw [sized]
    simp only [hl, hs, discard_state]

theorem has_shape_length {T : Type} (n : Nat) (lens : Lengths n) (a : DynamicArray T (n + 1))
    (h : has_shape n lens a = true) : length a = outer_length n lens := by
  cases n with
  | zero => simpa [has_shape, outer_length] using h
  | succ n =>
    obtain ⟨len, others⟩ := lens
    exact ((has_shape_succ n len others a).mp h).1

theorem same_shape_length {T : Type} (n : Nat) (a b : DynamicArray T (n + 1))
    (h : same_shape n a b = true) : length a = length b := by
  cases n with
  | zero => simpa [same_shape] using h
  | succ n => exact ((same_shape_succ n a b).mp h).1

/-- Row by row, read with `operator()`: arrays of the same shape have rows of
the same shape at every index of the outermost axis. -/
theorem same_shape_rows_at {T : Type} (n : Nat) (a b : DynamicArray T (n + 2))
    (h : same_shape (n + 1) a b = true) (i : Int) (h0 : 0 ≤ i) (hi : i < length b) :
    ∃ ra rb, at_ a i = .ok ra ∧ at_ b i = .ok rb ∧ same_shape n ra rb = true := by
  obtain ⟨hl, hrows⟩ := (same_shape_succ n a b).mp h
  obtain ⟨hb, hatb⟩ := dat_of_lt b i h0 hi
  obtain ⟨ha, hata⟩ := dat_of_lt a i h0 (by rw [hl]; exact hi)
  exact ⟨_, _, hata, hatb, hrows i.toNat ha hb⟩

theorem allocate_like_ok {T : Type} [Inhabited T] :
    ∀ (n : Nat) (a b : DynamicArray T (n + 1)),
      ∃ r, allocate_like n a b = .ok r ∧ same_shape n r b = true := by
  intro n
  induction n with
  | zero =>
    intro a b
    exact ⟨allocate 0 a (length b), rfl, by simp [same_shape, allocate, length]⟩
  | succ n ih =>
    intro a b
    have hl : length (allocate (n + 1) a (length b)) = List.length b := by
      simp [allocate, length]
    obtain ⟨s, hs, hlen, hrows⟩ := forLoop_rows
      (fun index (data_ : List (DynamicArray T (n + 1))) =>
        match at_ b index with
        | .error e => .error (e, data_)
        | .ok sub => on_row (fun row => allocate_like n row sub) index data_)
      (fun i row =>
        allocate_like n row (((b : List (DynamicArray T (n + 1)))[i]?).getD (DynamicArray.fresh (n + 1))))
      (fun i row =>
        same_shape n row
          (((b : List (DynamicArray T (n + 1)))[i]?).getD (DynamicArray.fresh (n + 1))) = true)
      (List.length b) (by
        intro i d hi _
        simp only [dat_nat b i hi, List.getElem?_eq_getElem hi, Option.getD_some])
      (fun i row _ => ih row _) (allocate (n + 1) a (length b)) hl
    refine ⟨s, ?_, ?_⟩
    · rw [allocate_like]
      simp only [hl]
      exact hs
    · rw [same_shape_succ]
      refine ⟨hlen, ?_⟩
      intro i h1 h2
      obtain ⟨row, hrow, hR⟩ := hrows i h2
      rw [List.getElem?_eq_getElem h1] at hrow
      cases hrow
      rw [List.getElem?_eq_getElem h2, Option.getD_some] at hR
      exact hR

theorem empty_like_ok {T : Type} [Inhabited T] (n : Nat) (b : DynamicArray T (n + 1)) :
    ∃ r, empty_like n b = .ok r ∧ same_shape n r b = true := by
  cases n with
  | zero =>
    exact ⟨List.replicate (length b) (default : T), rfl, by simp [same_shape, length]⟩
  | succ n =>
    obtain ⟨r, hr, hs⟩ := allocate_like_ok (n + 1) (DynamicArray.fresh (T := T) (n + 2)) b
    refine ⟨r, ?_, hs⟩
    rw [empty_like, hr]
    rfl

end Dynamic

/-! ## Allocation to a shape -/

/-- C17: after `allocate(len0, ..., len_{N-1})` a dynamic array, whatever its
shape was, has exactly the rectangular shape of the lengths: `length()` is
`len0`, and for more than one dimension every sub-array `at(i)` with
`0 ≤ i < len0` has the shape `(len1, ..., len_{N-1})`; `allocate(2, 3)` on
`{{1,2},{3}}` gives a 2×3 matrix. -/
theorem allocate_gives_shape {T : Type} [Inhabited T] :
    (∀ (NumDims : Nat) (a : DynamicArray T (NumDims + 1)) (lens : Dynamic.Lengths NumDims),
      ∃ a2, Dynamic.allocate_lengths NumDims a lens = .ok a2 ∧
        Dynamic.length a2 = Dynamic.outer_length NumDims lens ∧
        Dynamic.has_shape NumDims lens a2 = true) ∧
    (∀ (n : Nat) (a : DynamicArray T (n + 2)) (len0 : Nat) (others : Dynamic.Lengths n),
      ∃ a2, Dynamic.allocate_lengths (n + 1) a (len0, others) = .ok a2 ∧
        Dynamic.length a2 = len0 ∧
        ∀ i : Int, 0 ≤ i → i < len0 →
          ∃ row, Dynamic.at_ a2 i = .ok row ∧ Dynamic.has_shape n others row = true) ∧
    Dynamic.allocate_lengths 1 Scenario.ragged_matrix ((2 : Nat), (3 : Nat)) =
      .ok ([[0, 0, 0], [0, 0, 0]] : List (List Int)) := by
  refine ⟨?_, ?_, rfl⟩
  · intro NumDims a lens
    obtain ⟨a2, h, hs⟩ := Dynamic.allocate_lengths_ok NumDims lens a
    exact ⟨a2, h, Dynamic.has_shape_length NumDims lens a2 hs, hs⟩
  · intro n a len0 others
    obtain ⟨a2, h, hs⟩ := Dynamic.allocate_lengths_ok (n + 1) (len0, others) a
    obtain ⟨hl, hrows⟩ := (Dynamic.has_shape_succ n len0 others a2).mp hs
    refine ⟨a2, h, hl, ?_⟩
    intro i h0 hi
    obtain ⟨hlt, hat⟩ := Dynamic.dat_of_lt a2 i h0 (by rw [hl]; exact hi)
    exact ⟨_, hat, hrows i.toNat _ (List.getElem?_eq_getElem hlt)⟩

/-- C20: for every dynamic array `b`, `empty_like(b)` and `a.allocate_like(b)`
for every `a` give an array with the shape of `b` at every axis: the outer
length is `b.length()` and the `i`-th sub-array has the shape of `b.at(i)` for
every `0 ≤ i < b.length()`. -/
theorem allocate_like_gives_shape {T : Type} [Inhabited T] :
    (∀ (NumDims : Nat) (a b : DynamicArray T (NumDims + 1)),
      (∃ r, Dynamic.allocate_like NumDims a b = .ok r ∧
        Dynamic.length r = Dynamic.length b ∧ Dynamic.same_shape NumDims r b = true) ∧
      (∃ r, Dynamic.empty_like NumDims b = .ok r ∧
        Dynamic.length r = Dynamic.length b ∧ Dynamic.same_shape NumDims r b = true)) ∧
    (∀ (n : Nat) (r b : DynamicArray T (n + 2)), Dynamic.same_shape (n + 1) r b = true →
      ∀ i : Int, 0 ≤ i → i < Dynamic.length b →
        ∃ ri bi, Dynamic.at_ r i = .ok ri ∧ Dynamic.at_ b i = .ok bi ∧
          Dynamic.same_shape n ri bi = true) ∧
    Dynamic.empty_like 1 Scenario.ragged_matrix = .ok ([[0, 0], [0]] : List (List Int)) := by
  refine ⟨?_, ?_, rfl⟩
  · intro NumDims a b
    obtain ⟨r, h, hs⟩ := Dynamic.allocate_like_ok NumDims a b
    obtain ⟨r2, h2, hs2⟩ := Dynamic.empty_like_ok NumDims b
    exact ⟨⟨r, h, Dynamic.same_shape_length NumDims r b hs, hs⟩,
      ⟨r2, h2, Dynamic.same_shape_length NumDims r2 b hs2, hs2⟩⟩
  · intro n r b hs i h0 hi
    exact Dynamic.same_shape_rows_at n r b hs i h0 hi

namespace Dynamic

/-! ## Initializer lists and copies -/

theorem forEach_store_element {T : Type} (values init : DynamicArray T 1)
    (hlen : List.length init = List.length values) :
    forEach store_element values 0 init = .ok values := by
  obtain ⟨s, hs, hP⟩ := forEach_invariant (store_element (T := T)) (CopyInv values init) values 0 init
    (by
      intro i value s hv hP
      obtain ⟨hi, hv⟩ := List.getElem?_eq_some.mp hv
      simp only [Nat.zero_add] at hP ⊢
      have his : i < List.length s := by rw [hP.1]; exact hi
      refine ⟨List.set s i value, ?_, ?_⟩
      · unfold store_element
        rw [store_nat s i value his]
      · rw [← hv]
        exact CopyInv.step values init s i hi hP)
    (CopyInv.start values init hlen)
  rw [hs]
  simp only [Nat.zero_add] at hP
  rw [CopyInv.finish values init s hP]

/-- A range-for loop that lets every row take its value from the list: when
each row's member returns the value, the loop returns the list. -/
theorem forEach_rows {S : Type} (member : S → S → Except (Error × S) S)
    (values init : List S) (hlen : init.length = values.length)
    (hmem : ∀ i (h1 : i < init.length) (h2 : i < values.length),
      member init[i] values[i] = .ok values[i]) :
    forEach (fun index value data_ => on_row (fun row => member row value) index data_)
      values 0 init = .ok values := by
  obtain ⟨s, hs, hP⟩ := forEach_invariant
    (fun index value data_ => on_row (fun row => member row value) index data_)
    (CopyInv values init) values 0 init
    (by
      intro i value s hv hP
      obtain ⟨hi, hv⟩ := List.getElem?_eq_some.mp hv
      simp only [Nat.zero_add] at hP ⊢
      obtain ⟨his, hslot⟩ := CopyInv.slot values init s i (by omega) hP
      refine ⟨List.set s i value, ?_, ?_⟩
      · apply on_row_ok
        rw [hslot, ← hv]
        exact hmem i (by omega) hi
      · rw [← hv]
        exact CopyInv.step values init s i hi hP)
    (CopyInv.start values init hlen)
  rw [hs]
  simp only [Nat.zero_add] at hP
  rw [CopyInv.finish values init s hP]

/-- Member `fill(const InitializerList&)` on an unallocated array allocates and
takes the initializer's values. -/
theorem fill_values_of_unallocated {T : Type} [Inhabited T] :
    ∀ (n : Nat) (a : DynamicArray T (n + 1)) (values : InitializerList T (n + 1)),
      length a = 0 → fill_values n a values = .ok values := by
  intro n
  induction n with
  | zero =>
    intro a values ha
    rw [fill_values]
    simp only [ha, if_true]
    have hl : length (allocate 0 a (List.length values)) = List.length values := by
      simp [allocate, length]
    rw [if_neg (by rw [hl]; simp)]
    exact forEach_store_element values _ hl
  | succ n ih =>
    intro a values ha
    rw [fill_values]
    simp only [ha, if_true]
    have hl : length (allocate (n + 1) a (List.length values)) = List.length values := by
      simp [allocate, length]
    rw [if_neg (by rw [hl]; simp)]
    apply forEach_rows (fill_values n) values _ hl
    intro i h1 h2
    apply ih
    simp [allocate, length, DynamicArray.fresh]

theorem from_values_ok {T : Type} [Inhabited T] (n : Nat) (values : InitializerList T (n + 1)) :
    from_values n values = .ok values := by
  cases n with
  | zero =>
    rw [from_values]
    simp only []
    rw [forEach_store_element values _ (by simp)]
    rfl
  | succ n =>
    rw [from_values]
    rw [forEach_rows (fill_values n) values _ (by simp) (by
      intro i h1 h2
      apply fill_values_of_unallocated
      simp [length, DynamicArray.fresh])]
    rfl

theorem copy_ok {T : Type} [Inhabited T] (n : Nat) (a : DynamicArray T (n + 1)) :
    copy n a = .ok a := by
  cases n with
  | zero =>
    rw [copy]
    simp only []
    rw [fill_vector_ok _ a (Or.inr (by simp [length]))]
    rfl
  | succ n =>
    rw [copy]
    rw [forLoop_fill_row (fill n) a _ (by simp [length]) (by
      intro i h1 h2
      apply fill_of_unallocated
      simp [length, DynamicArray.fresh])]
    rfl

end Dynamic

/-! ## Construction -/

/-- C19: the dynamic constructor from a nested initializer takes its shape
from the initializer: `DynamicVector(vs)` has `length() == |vs|` and
`at(k) == vs[k]`; with more dimensions the outer length is the number of inner
lists and the `k`-th sub-array is the array built from the `k`-th inner list;
`{1,2,3}` gives length 3, `at(0) == 1`, `at(2) == 3`. -/
theorem from_initializer_shape {T : Type} [Inhabited T] :
    (∀ vs : List T,
      ∃ v, Dynamic.from_values 0 vs = .ok v ∧ Dynamic.length v = vs.length ∧
        ∀ k (hk : k < vs.length), Dynamic.at_ v (k : Int) = .ok vs[k]) ∧
    (∀ (n : Nat) (values : Dynamic.InitializerList T (n + 2)),
      ∃ v, Dynamic.from_values (n + 1) values = .ok v ∧
        Dynamic.length v = List.length values ∧
        ∀ k (hk : k < List.length values),
          ∃ sub, Dynamic.at_ v (k : Int) = .ok sub ∧
            Dynamic.from_values n ((values : List (DynamicArray T (n + 1)))[k]) = .ok sub) ∧
    (∃ v, Dynamic.from_values 0 ([1, 2, 3] : List Int) = .ok v ∧ Dynamic.length v = 3 ∧
      Dynamic.at_ v 0 = .ok (1 : Int) ∧ Dynamic.at_ v 2 = .ok (3 : Int)) := by
  refine ⟨?_, ?_, ⟨[1, 2, 3], rfl, rfl, rfl, rfl⟩⟩
  · intro vs
    exact ⟨vs, Dynamic.from_values_ok 0 vs, rfl, fun k hk => Dynamic.dat_nat vs k hk⟩
  · intro n values
    refine ⟨values, Dynamic.from_values_ok (n + 1) values, rfl, ?_⟩
    intro k hk
    exact ⟨_, Dynamic.dat_nat values k hk, Dynamic.from_values_ok n _⟩

namespace Dynamic

/-! ## Outer length after a mutating member -/

theorem fill_final_length {T : Type} [Inhabited T] (n : Nat) (a other : DynamicArray T (n + 1))
    (ha : 0 < length a) : length (final_state (fill n a other)) = length a := by
  obtain ⟨hok, herr⟩ := fill_outcome n a other
  cases h : fill n a other with
  | error x =>
    obtain ⟨e, a2⟩ := x
    exact (herr e a2 h).1
  | ok r =>
    have hr := hok r h
    subst hr
    by_cases hl : length a = length r
    · exact hl.symm
    · rw [fill_throws_of_length_ne n a r (by omega) hl] at h
      cases h

theorem fill_value_final_length {T : Type} (n : Nat) :
    ∀ (a : DynamicArray T (n + 1)) (value : T),
      length (final_state (fill_value n a value)) = length a := by
  cases n with
  | zero =>
    intro a value
    rw [fill_value]
    exact forLoop_preserves _ (fun s => List.length s = List.length a)
      (fun i s hs => by rw [← hs]; exact store_element_length i value s) _ 0 a rfl
  | succ n =>
    intro a value
    rw [fill_value]
    exact forLoop_preserves _ (fun s => List.length s = List.length a)
      (fun i s hs => by rw [← hs]; exact on_row_length _ i s) _ 0 a rfl

theorem fill_values_final_length {T : Type} [Inhabited T] (n : Nat)
    (a : DynamicArray T (n + 1)) (values : InitializerList T (n + 1)) (ha : 0 < length a) :
    length (final_state (fill_values n a values)) = length a := by
  have h0 : ¬ length a = 0 := by omega
  cases n with
  | zero =>
    rw [fill_values]
    simp only [h0, if_false]
    split
    · rfl
    · exact forEach_preserves _ (fun s => List.length s = List.length a)
        (fun i v s hs => by rw [← hs]; exact store_element_length i v s) values 0 a rfl
  | succ n =>
    rw [fill_values]
    simp only [h0, if_false]
    split
    · rfl
    · exact forEach_preserves _ (fun s => List.length s = List.length a)
        (fun i v s hs => by rw [← hs]; exact on_row_length _ i s) values 0 a rfl

end Dynamic

/-! ## Allocated and unallocated -/

/-- C13 refuted: `allocate(0)` on the allocated `DynamicVector<int>{1,2,3}`
leaves it with outer length 0, and so does `allocate_like` with a
default-constructed matrix on an allocated 2×3 matrix. -/
theorem allocated_stays_allocated_counterexample :
    0 < Dynamic.length Scenario.dynamic_vector ∧
    Dynamic.length
      (final_state (Dynamic.allocate_lengths 0 Scenario.dynamic_vector (0 : Nat))) = 0 ∧
    0 < Dynamic.length Scenario.matrix_2x3 ∧
    Dynamic.length
      (final_state (Dynamic.allocate_like 1 Scenario.matrix_2x3 Scenario.matrix_unallocated)) = 0 :=
  ⟨by decide, rfl, by decide, rfl⟩

/-- C13 as amended: on an allocated dynamic array `fill` with an array, a
scalar or an initializer and assignment keep the outer length, whether they
return or throw, so the array stays allocated; `allocate` leaves the outer
length equal to its first length and `allocate_like` equal to the outer
length of its argument. -/
theorem allocated_stays_allocated {T : Type} [Inhabited T] (NumDims : Nat)
    (a : DynamicArray T (NumDims + 1)) (ha : 0 < Dynamic.length a) :
    (∀ other, Dynamic.length (final_state (Dynamic.fill NumDims a other)) = Dynamic.length a) ∧
    (∀ other, Dynamic.length (final_state (Dynamic.assign NumDims a other)) = Dynamic.length a) ∧
    (∀ value, Dynamic.length (final_state (Dynamic.fill_value NumDims a value)) =
      Dynamic.length a) ∧
    (∀ values, Dynamic.length (final_state (Dynamic.fill_values NumDims a values)) =
      Dynamic.length a) ∧
    (∀ _length, Dynamic.length (Dynamic.allocate NumDims a _length) = _length) ∧
    (∀ lens, Dynamic.length (final_state (Dynamic.allocate_lengths NumDims a lens)) =
      Dynamic.outer_length NumDims lens) ∧
    (∀ other, Dynamic.length (final_state (Dynamic.allocate_like NumDims a other)) =
      Dynamic.length other) := by
  refine ⟨fun other => Dynamic.fill_final_length NumDims a other ha, ?_,
    fun value => Dynamic.fill_value_final_length NumDims a value,
    fun values => Dynamic.fill_values_final_length NumDims a values ha, ?_, ?_, ?_⟩
  · intro other
    have h : Dynamic.assign NumDims a other = Dynamic.fill NumDims a other := by
      cases NumDims with
      | zero => rfl
      | succ n => rfl
    rw [h]
    exact Dynamic.fill_final_length NumDims a other ha
  · intro _length
    simp [Dynamic.allocate, Dynamic.length]
  · intro lens
    obtain ⟨a2, h, hs⟩ := Dynamic.allocate_lengths_ok NumDims lens a
    rw [h]
    exact Dynamic.has_shape_length NumDims lens a2 hs
  · intro other
    obtain ⟨r, h, hs⟩ := Dynamic.allocate_like_ok NumDims a other
    rw [h]
    exact Dynamic.same_shape_length NumDims r other hs

theorem allocated_stays_allocated_witness :
    0 < Dynamic.length Scenario.matrix_2x3 ∧
    ((∀ other, Dynamic.length (final_state (Dynamic.fill 1 Scenario.matrix_2x3 other)) =
        Dynamic.length Scenario.matrix_2x3) ∧
      (∀ other, Dynamic.length (final_state (Dynamic.assign 1 Scenario.matrix_2x3 other)) =
        Dynamic.length Scenario.matrix_2x3) ∧
      (∀ value, Dynamic.length (final_state (Dynamic.fill_value 1 Scenario.matrix_2x3 value)) =
        Dynamic.length Scenario.matrix_2x3) ∧
      (∀ values, Dynamic.length (final_state (Dynamic.fill_values 1 Scenario.matrix_2x3 values)) =
        Dynamic.length Scenario.matrix_2x3) ∧
      (∀ _length, Dynamic.length (Dynamic.allocate 1 Scenario.matrix_2x3 _length) = _length) ∧
      (∀ lens, Dynamic.length (final_state (Dynamic.allocate_lengths 1 Scenario.matrix_2x3 lens)) =
        Dynamic.outer_length 1 lens) ∧
      (∀ other, Dynamic.length (final_state (Dynamic.allocate_like 1 Scenario.matrix_2x3 other)) =
        Dynamic.length other)) :=
  ⟨by decide, allocated_stays_allocated 1 Scenario.matrix_2x3 (by decide)⟩

/-! ## Nested loops over a matrix -/

/-- Two nested loops `for row < N, for column < N` that write entry
`(row, column)` leave every entry with its written value, when a write returns,
keeps the well-formedness of the state and changes no other entry. -/
theorem nested_loops_write {ε σ γ : Type} (N : Nat) (write : Nat → Nat → σ → Except ε σ)
    (WF : σ → Prop) (read : σ → Nat → Nat → γ) (want : Nat → Nat → γ)
    (hwrite : ∀ s i j, i < N → j < N → WF s →
      ∃ s2, write i j s = .ok s2 ∧ WF s2 ∧ read s2 i j = want i j ∧
        ∀ i2 j2, i2 < N → j2 < N → (i2 ≠ i ∨ j2 ≠ j) → read s2 i2 j2 = read s i2 j2)
    (s : σ) (hs : WF s) :
    ∃ s2, forLoop (fun row m => forLoop (fun column m2 => write row column m2) N 0 m) N 0 s
        = .ok s2 ∧ WF s2 ∧ ∀ i j, i < N → j < N → read s2 i j = want i j := by
  obtain ⟨s2, h, hWF, hall⟩ := forLoop_invariant
    (fun row m => forLoop (fun column m2 => write row column m2) N 0 m)
    (fun r m => WF m ∧ ∀ i j, i < r → j < N → read m i j = want i j) N
    (by
      intro r m hr hO
      obtain ⟨m2, hm2, hI⟩ := forLoop_invariant (fun column m2 => write r column m2)
        (fun c m2 => WF m2 ∧ (∀ i j, i < r → j < N → read m2 i j = want i j) ∧
          ∀ j, j < c → read m2 r j = want r j) N
        (by
          intro c m2 hc hI
          obtain ⟨hWF, hrows, hcols⟩ := hI
          obtain ⟨m3, hw, hWF3, hread, hframe⟩ := hwrite m2 r c hr hc hWF
          refine ⟨m3, hw, hWF3, ?_, ?_⟩
          · intro i j hi hj
            rw [hframe i j (by omega) hj (Or.inl (by omega))]
            exact hrows i j hi hj
          · intro j hj
            by_cases hjc : j = c
            · rw [hjc]; exact hread
            · rw [hframe r j hr (by omega) (Or.inr hjc)]
              exact hcols j (by omega))
        N 0 m (by omega) ⟨hO.1, hO.2, fun j hj => by omega⟩
      refine ⟨m2, hm2, hI.1, ?_⟩
      intro i j hi hj
      by_cases hir : i = r
      · rw [hir]; exact hI.2.2 j hj
      · exact hI.2.1 i j (by omega) hj)
    N 0 s (by omega) ⟨hs, fun i j hi _ => by omega⟩
  exact ⟨s2, h, hWF, hall⟩

namespace Dynamic

/-! ## Dynamic identity matrix -/

theorem dat_some {E : Type} (self : List E) (i : Nat) (v : E) (h : self[i]? = some v) :
    at_ self (i : Int) = .ok v := by
  obtain ⟨hi, hv⟩ := List.getElem?_eq_some.mp h
  rw [dat_nat self i hi, hv]

theorem at_coords_row {T : Type} (n : Nat) (a : DynamicArray T (n + 2)) (i : Nat)
    (row : DynamicArray T (n + 1)) (h : (a : List (DynamicArray T (n + 1)))[i]? = some row)
    (others : Coords n) :
    at_coords (n + 1) a ((i : Int), others) = at_coords n row others := by
  obtain ⟨hi, hv⟩ := List.getElem?_eq_some.mp h
  rw [at_coords_succ_nat n a i hi others, hv]

theorem put_coords_row {T : Type} (n : Nat) (a : DynamicArray T (n + 2)) (i : Nat)
    (row row2 : DynamicArray T (n + 1)) (h : (a : List (DynamicArray T (n + 1)))[i]? = some row)
    (others : Coords n) (value : T) (hput : put_coords n row others value = .ok row2) :
    put_coords (n + 1) a ((i : Int), others) value = .ok (List.set a i row2) := by
  obtain ⟨hi, hv⟩ := List.getElem?_eq_some.mp h
  rw [put_coords]
  simp only [check_input, length]
  rw [if_neg (by omega)]
  simp only
  rw [subscript_nat a i hi, hv]
  simp only [hput]
  exact store_nat a i row2 hi

/-- Writing one entry of an `N`×`N` dynamic matrix through `operator()(i, j)`
returns, keeps the shape, sets that entry and changes no other. -/
theorem square_write {T : Type} (N : Nat) (s : DynamicArray T 2) (i j : Nat) (value : T)
    (hi : i < N) (hj : j < N) (hs : has_shape 1 (N, N) s = true) :
    ∃ s2, put_coords 1 s ((i : Int), (j : Int)) value = .ok s2 ∧
      has_shape 1 (N, N) s2 = true ∧
      at_coords 1 s2 ((i : Int), (j : Int)) = .ok value ∧
      ∀ i2 j2 : Nat, i2 < N → j2 < N → (i2 ≠ i ∨ j2 ≠ j) →
        at_coords 1 s2 ((i2 : Int), (j2 : Int)) = at_coords 1 s ((i2 : Int), (j2 : Int)) := by
  obtain ⟨hl, hrows⟩ := (has_shape_succ 0 N N s).mp hs
  have hl2 : List.length s = N := hl
  have hrowlen : ∀ (k : Nat) (row : List T), (s : List (List T))[k]? = some row →
      List.length row = N := by
    intro k row hk
    simpa [has_shape, length] using hrows k row hk
  have hi2 : i < List.length s := by omega
  have hsi : (s : List (List T))[i]? = some ((s : List (List T))[i]) :=
    List.getElem?_eq_getElem hi2
  have hrl : List.length ((s : List (List T))[i]) = N := hrowlen i _ hsi
  have hset : ∀ k : Nat, (List.set s i (List.set ((s : List (List T))[i]) j value))[k]? =
      if i = k then some (List.set ((s : List (List T))[i]) j value)
      else (s : List (List T))[k]? := by
    intro k
    rw [List.getElem?_set]
    by_cases hik : i = k
    · subst hik
      rw [if_pos rfl, if_pos hi2, if_pos rfl]
    · rw [if_neg hik, if_neg hik]
  refine ⟨List.set s i (List.set ((s : List (List T))[i]) j value), ?_, ?_, ?_, ?_⟩
  · apply put_coords_row 0 s i _ _ hsi
    rw [put_coords]
    exact put_nat _ j value (by omega)
  · rw [has_shape_succ]
    refine ⟨by simp [length, hl2], ?_⟩
    intro k row hk
    rw [hset k] at hk
    by_cases hik : i = k
    · rw [if_pos hik] at hk
      cases hk
      simp [has_shape, length, hrl]
    · rw [if_neg hik] at hk
      exact hrows k row hk
  · rw [at_coords_row 0 _ i _ (by rw [hset i, if_pos rfl]), at_coords]
    apply dat_some
    rw [List.getElem?_set_self (by omega)]
  · intro i2 j2 hi2N hj2N hne
    have hsi2 : (s : List (List T))[i2]? = some ((s : List (List T))[i2]) :=
      List.getElem?_eq_getElem (by omega)
    by_cases hik : i = i2
    · subst hik
      have hj2 : j2 ≠ j := by
        cases hne with
        | inl h => exact absurd rfl h
        | inr h => exact h
      rw [at_coords_row 0 _ i _ (by rw [hset i, if_pos rfl]), at_coords_row 0 s i _ hsi,
        at_coords, at_coords]
      have hj2l : j2 < List.length ((s : List (List T))[i]) := by omega
      rw [dat_some _ j2 ((s : List (List T))[i])[j2] (by
        rw [List.getElem?_set_ne (by omega), List.getElem?_eq_getElem hj2l]),
        dat_nat _ j2 hj2l]
    · rw [at_coords_row 0 _ i2 _ (by rw [hset i2, if_neg hik]; exact hsi2),
        at_coords_row 0 s i2 _ hsi2]

theorem identity_ok {T : Type} [Inhabited T] [One T] [Zero T] (N : Nat) :
    ∃ m : DynamicArray T 2, Identity N = .ok m ∧ has_shape 1 (N, N) m = true ∧
      ∀ i j : Nat, i < N → j < N →
        at_coords 1 m ((i : Int), (j : Int)) = .ok (if i = j then (1 : T) else (0 : T)) := by
  obtain ⟨m0, hm0, hs0⟩ := sized_ok (T := T) 1 (N, N)
  obtain ⟨m, hm, hs, hall⟩ := nested_loops_write N
    (fun row column (m : DynamicArray T 2) =>
      put_coords 1 m ((row : Int), (column : Int)) (if row = column then (1 : T) else (0 : T)))
    (fun m => has_shape 1 (N, N) m = true)
    (fun m i j => at_coords 1 m ((i : Int), (j : Int)))
    (fun i j => .ok (if i = j then (1 : T) else (0 : T)))
    (fun s i j hi hj hs => square_write N s i j _ hi hj hs) m0 hs0
  refine ⟨m, ?_, hs, hall⟩
  unfold Identity
  rw [hm0]
  exact hm

end Dynamic

namespace Static

/-! ## Static coordinates and identity matrix -/

theorem sat_some {E : Type} {Dim : Nat} (self : Storage E Dim) (i : Nat) (v : E)
    (h : self.val[i]? = some v) : at_ self (i : Int) = .ok v := by
  obtain ⟨hi, hv⟩ := List.getElem?_eq_some.mp h
  rw [sat_nat self i hi, hv]

theorem at_coords_srow {T : Type} (Dim d : Nat) (ds : List Nat)
    (a : StaticArray T (Dim :: d :: ds)) (i : Nat) (row : StaticArray T (d :: ds))
    (h : a.val[i]? = some row) (others : Coords ds) :
    at_coords Dim (d :: ds) a ((i : Int), others) = at_coords d ds row others := by
  obtain ⟨hi, hv⟩ := List.getElem?_eq_some.mp h
  have hD : i < Dim := by have := a.property; omega
  rw [at_coords]
  simp only [transform_index_of_nonneg Dim (i : Int) (by omega), check_input]
  rw [if_neg (by omega)]
  simp only
  rw [subscript_nat a.val i hi, hv]

theorem put_coords_srow {T : Type} (Dim d : Nat) (ds : List Nat)
    (a : StaticArray T (Dim :: d :: ds)) (i : Nat) (row row2 : StaticArray T (d :: ds))
    (h : a.val[i]? = some row) (others : Coords ds) (value : T)
    (hput : put_coords d ds row others value = .ok row2) :
    ∃ a2, put_coords Dim (d :: ds) a ((i : Int), others) value = .ok a2 ∧
      a2.val = a.val.set i row2 := by
  obtain ⟨hi, hv⟩ := List.getElem?_eq_some.mp h
  have hD : i < Dim := by have := a.property; omega
  refine ⟨⟨a.val.set i row2, by simp [a.property]⟩, ?_, rfl⟩
  rw [put_coords]
  simp only [transform_index_of_nonneg Dim (i : Int) (by omega), check_input]
  rw [if_neg (by omega)]
  simp only
  rw [subscript_nat a.val i hi, hv]
  simp only [hput]
  exact sstore_nat a i row2 hD

/-- Writing one entry of an `N`×`N` static matrix through `operator()(i, j)`
returns, sets that entry and changes no other. -/
theorem static_square_write {T : Type} (N : Nat) (s : StaticArray T [N, N]) (i j : Nat)
    (value : T) (hi : i < N) (hj : j < N) :
    ∃ s2, put_coords N [N] s ((i : Int), (j : Int)) value = .ok s2 ∧
      at_coords N [N] s2 ((i : Int), (j : Int)) = .ok value ∧
      ∀ i2 j2 : Nat, i2 < N → j2 < N → (i2 ≠ i ∨ j2 ≠ j) →
        at_coords N [N] s2 ((i2 : Int), (j2 : Int)) = at_coords N [N] s ((i2 : Int), (j2 : Int)) := by
  have hl : s.val.length = N := s.property
  have hi2 : i < s.val.length := by omega
  have hsi : s.val[i]? = some (s.val[i]) := List.getElem?_eq_getElem hi2
  have hrl : (s.val[i]).val.length = N := (s.val[i]).property
  obtain ⟨s2, hput, hval⟩ := put_coords_srow N N [] s i (s.val[i])
    ⟨(s.val[i]).val.set j value, by simp [hrl]⟩ hsi (j : Int) value (by
      rw [put_coords]
      exact sput_nat _ j value hj)
  have hset : ∀ k : Nat, s2.val[k]? =
      if i = k then some (⟨(s.val[i]).val.set j value, by simp [hrl]⟩ : Storage T N)
      else s.val[k]? := by
    intro k
    rw [hval, List.getElem?_set]
    by_cases hik : i = k
    · subst hik
      rw [if_pos rfl, if_pos hi2, if_pos rfl]
    · rw [if_neg hik, if_neg hik]
  refine ⟨s2, hput, ?_, ?_⟩
  · rw [at_coords_srow N N [] s2 i _ (by rw [hset i, if_pos rfl]), at_coords]
    apply sat_some
    exact List.getElem?_set_self (by omega)
  · intro i2 j2 hi2N hj2N hne
    have hsi2 : s.val[i2]? = some (s.val[i2]) := List.getElem?_eq_getElem (by omega)
    by_cases hik : i = i2
    · subst hik
      have hj2 : j2 ≠ j := by
        cases hne with
        | inl h => exact absurd rfl h
        | inr h => exact h
      rw [at_coords_srow N N [] s2 i _ (by rw [hset i, if_pos rfl]),
        at_coords_srow N N [] s i _ hsi, at_coords, at_coords]
      have hj2l : j2 < (s.val[i]).val.length := by omega
      rw [sat_some _ j2 ((s.val[i]).val[j2]) (by
        show ((s.val[i]).val.set j value)[j2]? = _
        rw [List.getElem?_set_ne (by omega), List.getElem?_eq_getElem hj2l]),
        sat_nat _ j2 hj2l]
    · rw [at_coords_srow N N [] s2 i2 _ (by rw [hset i2, if_neg hik]; exact hsi2),
        at_coords_srow N N [] s i2 _ hsi2]

theorem static_identity_ok {T : Type} [Inhabited T] [One T] [Zero T] (N : Nat) :
    ∃ m : StaticArray T [N, N], Identity N = .ok m ∧
      ∀ i j : Nat, i < N → j < N →
        at_coords N [N] m ((i : Int), (j : Int)) = .ok (if i = j then (1 : T) else (0 : T)) := by
  obtain ⟨m, hm, _, hall⟩ := nested_loops_write N
    (fun row column (m : StaticArray T [N, N]) =>
      put_coords N [N] m ((row : Int), (column : Int)) (if row = column then (1 : T) else (0 : T)))
    (fun _ => True)
    (fun m i j => at_coords N [N] m ((i : Int), (j : Int)))
    (fun i j => .ok (if i = j then (1 : T) else (0 : T)))
    (fun s i j hi hj _ => by
      obtain ⟨s2, h1, h2, h3⟩ := static_square_write N s i j
        (if i = j then (1 : T) else (0 : T)) hi hj
      exact ⟨s2, h1, trivial, h2, h3⟩)
    (StaticArray.uninit [N, N]) trivial
  exact ⟨m, hm, hall⟩

/-- Static arrays are the same exactly when every pair of leaf elements at
the same coordinates is a pair of equal elements. -/
theorem static_eq_iff_leaves {T : Type} : ∀ (OtherDim : List Nat) (Dim : Nat)
    (a b : StaticArray T (Dim :: OtherDim)),
    a = b ↔ ∀ (c : Coords OtherDim) (v w : T),
      at_coords Dim OtherDim a c = .ok v → at_coords Dim OtherDim b c = .ok w → v = w := by
  intro OtherDim
  induction OtherDim with
  | nil =>
    intro Dim a b
    have ha : a.val.length = Dim := a.property
    have hb : b.val.length = Dim := b.property
    constructor
    · intro h c v w hv hw
      rw [h, hw] at hv
      cases hv
      rfl
    · intro h
      apply Subtype.ext
      apply list_eq_of_slots a.val b.val (by omega)
      intro j hj
      have hja : j < a.val.length := by omega
      rw [List.getElem?_eq_getElem hja, List.getElem?_eq_getElem hj]
      congr 1
      exact h ((j : Int)) _ _ (sat_nat a j hja) (sat_nat b j hj)
  | cons d ds ih =>
    intro Dim a b
    have ha : a.val.length = Dim := a.property
    have hb : b.val.length = Dim := b.property
    constructor
    · intro h c v w hv hw
      rw [h, hw] at hv
      cases hv
      rfl
    · intro h
      apply Subtype.ext
      apply list_eq_of_slots a.val b.val (by omega)
      intro j hj
      have hja : j < a.val.length := by omega
      rw [List.getElem?_eq_getElem hja, List.getElem?_eq_getElem hj]
      congr 1
      apply (ih d (a.val[j]) (b.val[j])).mpr
      intro c v w hv hw
      apply h ((j : Int), c) v w
      · rw [at_coords_srow Dim d ds a j _ (List.getElem?_eq_getElem hja) c]; exact hv
      · rw [at_coords_srow Dim d ds b j _ (List.getElem?_eq_getElem hj) c]; exact hw

end Static

namespace Static

/-! ## Leaf comparison of static arrays -/

theorem sat_ok_slot {E : Type} {Dim : Nat} (self : Storage E Dim) (index : Int) (v : E)
    (h : at_ self index = .ok v) :
    self.val[(transform_index Dim index).toNat]? = some v := by
  unfold at_ at h
  simp only [check_input] at h
  by_cases hr : transform_index Dim index ≥ (Dim : Int) ∨ transform_index Dim index < 0
  · rw [if_pos hr] at h
    cases h
  · rw [if_neg hr] at h
    simp only at h
    have h0 : 0 ≤ transform_index Dim index := by omega
    have hlt : (transform_index Dim index).toNat < self.val.length := by
      rw [self.property]
      exact (Int.toNat_lt h0).mpr (by omega)
    rw [subscript_of_lt self.val _ h0 hlt] at h
    cases h
    exact List.getElem?_eq_getElem hlt

theorem at_coords_ok_srow {T : Type} (Dim d : Nat) (ds : List Nat)
    (a : StaticArray T (Dim :: d :: ds)) (first : Int) (others : Coords ds) (v : T)
    (h : at_coords Dim (d :: ds) a (first, others) = .ok v) :
    ∃ row : StaticArray T (d :: ds),
      a.val[(transform_index Dim first).toNat]? = some row ∧
        at_coords d ds row others = .ok v := by
  rw [at_coords] at h
  simp only [check_input] at h
  by_cases hr : transform_index Dim first ≥ (Dim : Int) ∨ transform_index Dim first < 0
  · rw [if_pos hr] at h
    cases h
  · rw [if_neg hr] at h
    simp only at h
    have h0 : 0 ≤ transform_index Dim first := by omega
    have hlt : (transform_index Dim first).toNat < a.val.length := by
      rw [a.property]
      exact (Int.toNat_lt h0).mpr (by omega)
    rw [subscript_of_lt a.val _ h0 hlt] at h
    exact ⟨_, List.getElem?_eq_getElem hlt, h⟩

/-- The static `all_equal` does not throw, and it returns `true` exactly when
`!=` is false on every pair of leaf elements at the same coordinates. -/
theorem all_equal_static_leaves {T : Type} (ne : T → T → Bool) :
    ∀ (OtherDim : List Nat) (Dim : Nat) (a b : StaticArray T (Dim :: OtherDim)),
      ∃ r, all_equal ne Dim OtherDim a b = .ok r ∧
        (r = true ↔ ∀ (c : Coords OtherDim) (v w : T),
          at_coords Dim OtherDim a c = .ok v → at_coords Dim OtherDim b c = .ok w →
            ne v w = false) := by
  intro OtherDim
  induction OtherDim with
  | nil =>
    intro Dim a b
    have ha : a.val.length = Dim := a.property
    have hb : b.val.length = Dim := b.property
    rw [all_equal]
    obtain ⟨r, hr, hiff⟩ := allLoop_ok
      (fun index =>
        match at_ a index, at_ b index with
        | .ok (l : T), .ok (r : T) => .ok (if ne l r then false else true)
        | .error e, _ => .error e
        | _, .error e => .error e)
      (fun i => ∀ x y : T, a.val[i]? = some x → b.val[i]? = some y → ne x y = false) Dim (by
        intro i hi
        have hia : i < a.val.length := by omega
        have hib : i < b.val.length := by omega
        refine ⟨if ne (a.val[i]) (b.val[i]) then false else true, ?_, ?_⟩
        · simp only [sat_nat a i hia, sat_nat b i hib]
        · constructor
          · intro h x y hx hy
            rw [List.getElem?_eq_getElem hia] at hx
            rw [List.getElem?_eq_getElem hib] at hy
            cases hx
            cases hy
            cases hne : ne (a.val[i]) (b.val[i]) with
            | false => rfl
            | true => rw [hne] at h; simp at h
          · intro h
            rw [h _ _ (List.getElem?_eq_getElem hia) (List.getElem?_eq_getElem hib)]
            rfl)
      Dim 0 (by omega)
    refine ⟨r, hr, ?_⟩
    rw [hiff]
    constructor
    · intro h c v w hv hw
      rw [at_coords] at hv hw
      have hx := sat_ok_slot a c v hv
      have hy := sat_ok_slot b c w hw
      obtain ⟨hlt, _⟩ := List.getElem?_eq_some.mp hx
      exact h _ (Nat.zero_le _) (by omega) v w hx hy
    · intro h i _ hi x y hx hy
      apply h ((i : Int)) x y
      · rw [at_coords]; exact sat_some a i x hx
      · rw [at_coords]; exact sat_some b i y hy
  | cons d ds ih =>
    intro Dim a b
    have ha : a.val.length = Dim := a.property
    have hb : b.val.length = Dim := b.property
    rw [all_equal]
    obtain ⟨r, hr, hiff⟩ := allLoop_ok
      (fun index =>
        match at_ a index, at_ b index with
        | .ok l, .ok r => all_equal ne d ds l r
        | .error e, _ => .error e
        | _, .error e => .error e)
      (fun i => ∀ x y : StaticArray T (d :: ds), a.val[i]? = some x → b.val[i]? = some y →
        ∀ (c : Coords ds) (v w : T),
          at_coords d ds x c = .ok v → at_coords d ds y c = .ok w → ne v w = false) Dim (by
        intro i hi
        have hia : i < a.val.length := by omega
        have hib : i < b.val.length := by omega
        obtain ⟨ri, hri, hiffi⟩ := ih d (a.val[i]) (b.val[i])
        refine ⟨ri, ?_, ?_⟩
        · simp only [sat_nat a i hia, sat_nat b i hib]
          exact hri
        · rw [hiffi]
          constructor
          · intro h x y hx hy
            rw [List.getElem?_eq_getElem hia] at hx
            rw [List.getElem?_eq_getElem hib] at hy
            cases hx
            cases hy
            exact h
          · intro h
            exact h _ _ (List.getElem?_eq_getElem hia) (List.getElem?_eq_getElem hib))
      Dim 0 (by omega)
    refine ⟨r, hr, ?_⟩
    rw [hiff]
    constructor
    · intro h c v w hv hw
      obtain ⟨first, others⟩ := c
      obtain ⟨x, hx, hv2⟩ := at_coords_ok_srow Dim d ds a first others v hv
      obtain ⟨y, hy, hw2⟩ := at_coords_ok_srow Dim d ds b first others w hw
      obtain ⟨hlt, _⟩ := List.getElem?_eq_some.mp hx
      exact h _ (Nat.zero_le _) (by omega) x y hx hy others v w hv2 hw2
    · intro h i _ hi x y hx hy c v w hv hw
      apply h ((i : Int), c) v w
      · rw [at_coords_srow Dim d ds a i x hx c]; exact hv
      · rw [at_coords_srow Dim d ds b i y hy c]; exact hw

/-- Comparing a static array with itself: `all_equal` returns `true` exactly
when `x != x` is false for every leaf element `x`. -/
theorem all_equal_static_self_leaves {T : Type} (ne : T → T → Bool) (OtherDim : List Nat)
    (Dim : Nat) (a : StaticArray T (Dim :: OtherDim)) :
    ∃ r, all_equal ne Dim OtherDim a a = .ok r ∧
      (r = true ↔ ∀ (c : Coords OtherDim) (v : T),
        at_coords Dim OtherDim a c = .ok v → ne v v = false) := by
  obtain ⟨r, hr, hiff⟩ := all_equal_static_leaves ne OtherDim Dim a a
  refine ⟨r, hr, hiff.trans ?_⟩
  constructor
  · intro h c v hv
    exact h c v v hv hv
  · intro h c v w hv hw
    rw [hv] at hw
    cases hw
    exact h c v hv

end Static

/-! ## Identity matrices and static equality -/

/-- C16: for every `N ≥ 0` the dynamic `Identity(N)`, and the static
`Identity<N>()`, on an element type with `1` and `0` yield an `N`×`N` array:
outer length `N`, every row of length `N`, `at(i,i) == 1` for `0 ≤ i < N` and
`at(i,j) == 0` for `0 ≤ i, j < N` with `i ≠ j`; `Identity(3)` on `int` is
`{{1,0,0},{0,1,0},{0,0,1}}`. -/
theorem identity_matrix {T : Type} [Inhabited T] [One T] [Zero T] :
    (∀ N : Nat, ∃ m, Dynamic.Identity (T := T) N = .ok m ∧ Dynamic.length m = N ∧
      (∀ i : Int, 0 ≤ i → i < N →
        ∃ row, Dynamic.at_ m i = .ok row ∧ Dynamic.length (row : List T) = N) ∧
      (∀ i : Nat, i < N → Dynamic.at_coords 1 m ((i : Int), (i : Int)) = .ok (1 : T)) ∧
      (∀ i j : Nat, i < N → j < N → i ≠ j →
        Dynamic.at_coords 1 m ((i : Int), (j : Int)) = .ok (0 : T))) ∧
    (∀ N : Nat, ∃ m, Static.Identity (T := T) N = .ok m ∧ Static.length m = N ∧
      (∀ i : Int, 0 ≤ i → i < N →
        ∃ row : StaticArray T [N], Static.at_ m i = .ok row ∧ Static.length row = N) ∧
      (∀ i : Nat, i < N → Static.at_coords N [N] m ((i : Int), (i : Int)) = .ok (1 : T)) ∧
      (∀ i j : Nat, i < N → j < N → i ≠ j →
        Static.at_coords N [N] m ((i : Int), (j : Int)) = .ok (0 : T))) ∧
    Dynamic.Identity 3 = .ok ([[1, 0, 0], [0, 1, 0], [0, 0, 1]] : List (List Int)) := by
  refine ⟨?_, ?_, rfl⟩
  · intro N
    obtain ⟨m, hm, hs, hall⟩ := Dynamic.identity_ok (T := T) N
    obtain ⟨hl, hrows⟩ := (Dynamic.has_shape_succ 0 N N m).mp hs
    refine ⟨m, hm, hl, ?_, ?_, ?_⟩
    · intro i h0 hi
      obtain ⟨hlt, hat⟩ := Dynamic.dat_of_lt m i h0 (by rw [hl]; exact hi)
      refine ⟨_, hat, ?_⟩
      simpa [Dynamic.has_shape] using hrows i.toNat _ (List.getElem?_eq_getElem hlt)
    · intro i hi
      rw [hall i i hi hi, if_pos rfl]
    · intro i j hi hj hne
      rw [hall i j hi hj, if_neg hne]
  · intro N
    obtain ⟨m, hm, hall⟩ := Static.static_identity_ok (T := T) N
    refine ⟨m, hm, rfl, ?_, ?_, ?_⟩
    · intro i h0 hi
      obtain ⟨_, hat⟩ := Static.sat_of_lt m i h0 hi
      exact ⟨_, hat, rfl⟩
    · intro i hi
      rw [hall i i hi hi, if_pos rfl]
    · intro i j hi hj hne
      rw [hall i j hi hj, if_neg hne]

/-- C18: on two static arrays of the same type `all_equal` returns `true`
exactly when every pair of leaf elements at the same coordinates compares
equal (`!=` is false on it); for an element type whose `!=` is the negation
of equality, exactly when every such pair is a pair of equal elements; on
`StaticVector<int,4>` `{1,2,3,4}` and `{1,2,3,5}` it returns `false`. -/
theorem static_all_equal_leaves {T : Type} (ne : T → T → Bool) :
    (∀ (L : Nat) (OtherDim : List Nat) (a b : StaticArray T (L :: OtherDim)),
      ∃ r, Static.all_equal ne L OtherDim a b = .ok r ∧
        (r = true ↔ ∀ (c : Static.Coords OtherDim) (v w : T),
          Static.at_coords L OtherDim a c = .ok v → Static.at_coords L OtherDim b c = .ok w →
            ne v w = false) ∧
        ((∀ x y : T, ne x y = false ↔ x = y) →
          (r = true ↔ ∀ (c : Static.Coords OtherDim) (v w : T),
            Static.at_coords L OtherDim a c = .ok v → Static.at_coords L OtherDim b c = .ok w →
              v = w))) ∧
    Static.all_equal Scenario.int_ne 4 [] Scenario.static_vector Scenario.static_vector_other =
      .ok false := by
  refine ⟨?_, rfl⟩
  intro L OtherDim a b
  obtain ⟨r, hr, hiff⟩ := Static.all_equal_static_leaves ne OtherDim L a b
  refine ⟨r, hr, hiff, ?_⟩
  intro hne
  rw [hiff]
  constructor
  · intro h c v w hv hw
    exact (hne v w).mp (h c v w hv hw)
  · intro h c v w hv hw
    exact (hne v w).mpr (h c v w hv hw)

/-! ## Early return of the comparison loop -/

/-- The early-return loop ends at the first index whose test is not `true`,
with the outcome of that test, whatever the later tests would give. -/
theorem allLoop_stops (test : Nat → Except Error Bool) (k : Nat) (r : Except Error Bool)
    (hr : test k = r) (hne : r ≠ .ok true) :
    ∀ (count index : Nat), index ≤ k → k < index + count →
      (∀ j, index ≤ j → j < k → test j = .ok true) → allLoop test count index = r := by
  intro count
  induction count with
  | zero =>
    intro index h1 h2 _
    omega
  | succ c ih =>
    intro index h1 h2 hbefore
    by_cases hik : index = k
    · subst hik
      cases r with
      | error e => simp only [allLoop, hr]
      | ok v =>
        cases v with
        | false => simp only [allLoop, hr]
        | true => exact absurd rfl hne
    · have ht := hbefore index (le_refl _) (by omega)
      simp only [allLoop, ht]
      exact ih (index + 1) (by omega) (by omega) (fun j hj1 hj2 => hbefore j (by omega) hj2)

/-- An exception that leaves the early-return loop is the exception of one of
its tests. -/
theorem allLoop_error (test : Nat → Except Error Bool) (e : Error) :
    ∀ (count index : Nat), allLoop test count index = .error e →
      ∃ i, index ≤ i ∧ i < index + count ∧ test i = .error e := by
  intro count
  induction count with
  | zero =>
    intro index h
    cases h
  | succ c ih =>
    intro index h
    cases ht : test index with
    | error e2 =>
      simp only [allLoop, ht] at h
      cases h
      exact ⟨index, le_refl _, by omega, ht⟩
    | ok v =>
      cases v with
      | false =>
        simp only [allLoop, ht] at h
        cases h
      | true =>
        simp only [allLoop, ht] at h
        obtain ⟨i, h1, h2, h3⟩ := ih (index + 1) h
        exact ⟨i, by omega, by omega, h3⟩

namespace Dynamic

/-- The only exception of the dynamic `all_equal` is `MismatchedLength`. -/
theorem all_equal_error_kind {T : Type} (ne : T → T → Bool) :
    ∀ (n : Nat) (a b : DynamicArray T (n + 1)) (e : Error),
      all_equal ne n a b = .error e → ∃ l r, e = Error.MismatchedLength l r := by
  intro n
  induction n with
  | zero =>
    intro a b e h
    by_cases hl : length a = length b
    · have hl2 : List.length a = List.length b := hl
      rw [all_equal, if_neg (by simp [hl])] at h
      obtain ⟨i, _, hi, ht⟩ := allLoop_error _ e _ _ h
      have hia : i < List.length a := by unfold length at hi; omega
      simp only [dat_nat a i hia, dat_nat b i (by omega)] at ht
      cases ht
    · rw [all_equal, if_pos hl] at h
      cases h
      exact ⟨_, _, rfl⟩
  | succ n ih =>
    intro a b e h
    by_cases hl : length a = length b
    · have hl2 : List.length a = List.length b := hl
      rw [all_equal, if_neg (by simp [hl])] at h
      obtain ⟨i, _, hi, ht⟩ := allLoop_error _ e _ _ h
      have hia : i < List.length a := by unfold length at hi; omega
      simp only [dat_nat a i hia, dat_nat b i (by omega)] at ht
      exact ih _ _ e ht
    · rw [all_equal, if_pos hl] at h
      cases h
      exact ⟨_, _, rfl⟩

/-- With equal outer lengths, `all_equal` has the outcome of the first row
comparison that does not return `true`. -/
theorem all_equal_first_row {T : Type} (ne : T → T → Bool) (n : Nat)
    (a b : DynamicArray T (n + 2)) (hlen : length a = length b) (k : Nat)
    (hk : k < List.length a)
    (hbefore : ∀ j (h1 : j < List.length a) (h2 : j < List.length b), j < k →
      all_equal ne n ((a : List (DynamicArray T (n + 1)))[j])
        ((b : List (DynamicArray T (n + 1)))[j]) = .ok true)
    (hkb : k < List.length b)
    (hnot : all_equal ne n ((a : List (DynamicArray T (n + 1)))[k])
      ((b : List (DynamicArray T (n + 1)))[k]) ≠ .ok true) :
    all_equal ne (n + 1) a b =
      all_equal ne n ((a : List (DynamicArray T (n + 1)))[k])
        ((b : List (DynamicArray T (n + 1)))[k]) := by
  have hl2 : List.length a = List.length b := hlen
  rw [all_equal, if_neg (by simp [hlen])]
  apply allLoop_stops _ k _ _ hnot (length a) 0 (Nat.zero_le _) (by unfold length; omega)
  · intro j _ hj
    have hja : j < List.length a := by omega
    simp only [dat_nat a j hja, dat_nat b j (by omega)]
    exact hbefore j hja (by omega) hj
  · simp only [dat_nat a k hk, dat_nat b k hkb]

end Dynamic

/-! ## Short circuit of the dynamic comparison -/

/-- C21: for two dynamic arrays of more than one dimension with equal outer
length, if `k` is the first row at which `all_equal(a.at(k), b.at(k))` does not
return `true`, then `all_equal(a, b)` has the outcome of that row comparison:
`false` when it returns `false`, its `MismatchedLength` when it throws,
whatever the later rows are. -/
theorem all_equal_short_circuit {T : Type} (ne : T → T → Bool) (n : Nat)
    (a b : DynamicArray T (n + 2)) (hlen : Dynamic.length a = Dynamic.length b) (k : Nat)
    (ra rb : DynamicArray T (n + 1)) (hra : Dynamic.at_ a (k : Int) = .ok ra)
    (hrb : Dynamic.at_ b (k : Int) = .ok rb)
    (hbefore : ∀ j : Nat, j < k →
      ∃ x y, Dynamic.at_ a (j : Int) = .ok x ∧ Dynamic.at_ b (j : Int) = .ok y ∧
        Dynamic.all_equal ne n x y = .ok true)
    (hnot : Dynamic.all_equal ne n ra rb ≠ .ok true) :
    Dynamic.all_equal ne (n + 1) a b = Dynamic.all_equal ne n ra rb ∧
    (Dynamic.all_equal ne n ra rb = .ok false → Dynamic.all_equal ne (n + 1) a b = .ok false) ∧
    (∀ e, Dynamic.all_equal ne n ra rb = .error e →
      Dynamic.all_equal ne (n + 1) a b = .error e ∧ ∃ l r, e = Error.MismatchedLength l r) := by
  have hl2 : List.length a = List.length b := hlen
  have hk : k < List.length a := by
    by_contra hge
    rw [Dynamic.dat_out a (k : Int) (Or.inr (by unfold Dynamic.length; omega))] at hra
    cases hra
  have hkb : k < List.length b := by omega
  rw [Dynamic.dat_nat a k hk] at hra
  rw [Dynamic.dat_nat b k hkb] at hrb
  cases hra
  cases hrb
  have key := Dynamic.all_equal_first_row ne n a b hlen k hk (by
    intro j h1 h2 hj
    obtain ⟨x, y, hx, hy, hxy⟩ := hbefore j hj
    rw [Dynamic.dat_nat a j h1] at hx
    rw [Dynamic.dat_nat b j h2] at hy
    cases hx
    cases hy
    exact hxy) hkb hnot
  refine ⟨key, ?_, ?_⟩
  · intro h
    rw [key, h]
  · intro e h
    exact ⟨by rw [key, h], Dynamic.all_equal_error_kind ne n _ _ e h⟩

theorem all_equal_short_circuit_witness :
    (Dynamic.length Scenario.masked_left = Dynamic.length Scenario.masked_right ∧
      Dynamic.at_ Scenario.masked_left ((1 : Nat) : Int) = .ok ([2] : List Int) ∧
      Dynamic.at_ Scenario.masked_right ((1 : Nat) : Int) = .ok ([3] : List Int) ∧
      Dynamic.all_equal Scenario.int_ne 0 ([2] : List Int) ([3] : List Int) ≠ .ok true ∧
      Dynamic.all_equal Scenario.int_ne 0 ([4, 5, 7] : List Int) ([4, 5] : List Int) =
        .error (.MismatchedLength 3 2) ∧
      Dynamic.all_equal Scenario.int_ne 1 Scenario.masked_left Scenario.masked_right = .ok false) ∧
    (Dynamic.all_equal Scenario.int_ne 1 Scenario.masked_left Scenario.masked_right =
        Dynamic.all_equal Scenario.int_ne 0 ([2] : List Int) ([3] : List Int) ∧
      (Dynamic.all_equal Scenario.int_ne 0 ([2] : List Int) ([3] : List Int) = .ok false →
        Dynamic.all_equal Scenario.int_ne 1 Scenario.masked_left Scenario.masked_right = .ok false) ∧
      (∀ e, Dynamic.all_equal Scenario.int_ne 0 ([2] : List Int) ([3] : List Int) = .error e →
        Dynamic.all_equal Scenario.int_ne 1 Scenario.masked_left Scenario.masked_right = .error e ∧
          ∃ l r, e = Error.MismatchedLength l r)) :=
  ⟨⟨rfl, rfl, rfl,
      (fun h => by
        rw [show Dynamic.all_equal Scenario.int_ne 0 ([2] : List Int) ([3] : List Int) = .ok false from rfl] at h
        cases h),
      rfl, rfl⟩,
    all_equal_short_circuit Scenario.int_ne 0 Scenario.masked_left Scenario.masked_right rfl 1
      ([2] : List Int) ([3] : List Int) rfl rfl
      (fun j hj => by
        have h0 : j = 0 := by omega
        subst h0
        exact ⟨([1] : List Int), ([1] : List Int), rfl, rfl, rfl⟩)
      (fun h => by
        rw [show Dynamic.all_equal Scenario.int_ne 0 ([2] : List Int) ([3] : List Int) = .ok false from rfl] at h
        cases h)⟩

namespace Dynamic

/-! ## The row at which a fill throws -/

/-- The row loop of `fill`, when it throws, throws at the first row `k` whose
own `fill` throws, with that row's exception: every row before `k` was filled
and holds the argument's row, row `k` is as its `fill` left it, the rows after
`k` are untouched. -/
theorem forLoop_fill_row_first {S : Type} (fillSub : S → S → Except (Error × S) S)
    (array init : List S) (hlen : init.length = array.length)
    (hsub : ∀ row src r, fillSub row src = .ok r → r = src) (e : Error) (s : List S)
    (h : forLoop (fill_row fillSub array) (length init) 0 init = .error (e, s)) :
    ∃ (k : Nat) (row src row2 : S),
      k < init.length ∧ init[k]? = some row ∧ array[k]? = some src ∧
      fillSub row src = .error (e, row2) ∧
      (∀ (j : Nat) (r t : S), j < k → init[j]? = some r → array[j]? = some t →
        fillSub r t = .ok t) ∧
      s[k]? = some row2 ∧
      (∀ j, j < k → s[j]? = array[j]?) ∧ (∀ j, k < j → s[j]? = init[j]?) := by
  have key := forLoop_cases (fill_row fillSub array)
    (fun i st => CopyInv array init i st ∧
      ∀ (j : Nat) (r t : S), j < i → init[j]? = some r → array[j]? = some t →
        fillSub r t = .ok t)
    (fun i x => ∃ row src row2 st, init[i]? = some row ∧ array[i]? = some src ∧
      fillSub row src = .error (x.1, row2) ∧ x.2 = List.set st i row2 ∧
      CopyInv array init i st ∧
      ∀ (j : Nat) (r t : S), j < i → init[j]? = some r → array[j]? = some t →
        fillSub r t = .ok t)
    array.length (by
      intro i st hi hP
      obtain ⟨hP, hprev⟩ := hP
      obtain ⟨hlt, hslot⟩ := CopyInv.slot array init st i (by omega) hP
      have hii : i < init.length := by omega
      have hbody : fill_row fillSub array i st =
          match fillSub (init[i]) (array[i]) with
          | .error (e, row2) => .error (e, st.set i row2)
          | .ok row2 => .ok (st.set i row2) := by
        unfold fill_row
        rw [dat_nat array i hi]
        simp only
        rw [subscript_nat st i hlt]
        simp only
        rw [hslot]
        cases hf : fillSub (init[i]) (array[i]) with
        | error x => rfl
        | ok row2 =>
          simp only
          rw [store_nat st i _ hlt]
      cases hf : fillSub (init[i]) (array[i]) with
      | error x =>
        right
        refine ⟨(x.1, st.set i x.2), ?_, init[i], array[i], x.2, st,
          List.getElem?_eq_getElem _, List.getElem?_eq_getElem _, ?_, rfl, hP, hprev⟩
        · rw [hbody, hf]
        · rw [hf]
      | ok row2 =>
        left
        have hr := hsub _ _ _ hf
        subst hr
        refine ⟨st.set i (array[i]), ?_, CopyInv.step array init st i hi hP, ?_⟩
        · rw [hbody, hf]
        · intro j r t hj hr ht
          by_cases hji : j = i
          · subst hji
            rw [List.getElem?_eq_getElem hii] at hr
            rw [List.getElem?_eq_getElem hi] at ht
            cases hr
            cases ht
            exact hf
          · exact hprev j r t (by omega) hr ht)
    array.length 0 init (by omega)
    ⟨CopyInv.start array init hlen, fun j _ _ hj => by omega⟩
  unfold length at h
  rw [hlen] at h
  rcases key with ⟨s2, h1, _⟩ | ⟨x, i, _, hi, h1, row, src, row2, st, hr, hs, hf, hx, hP, hprev⟩
  · rw [h1] at h
    cases h
  · rw [h1] at h
    cases h
    obtain ⟨hl, hb, ha⟩ := CopyInv.set_failed array init st i row2 hP
    simp only at hx hf
    refine ⟨i, row, src, row2, by omega, hr, hs, hf, hprev, ?_, ?_, ?_⟩
    · rw [hx]
      exact List.getElem?_set_self (by rw [hP.1]; exact hi)
    · rw [hx]; exact hb
    · rw [hx]; exact ha

/-- A `fill` of an array of more than one dimension that throws although the
outer lengths agree throws at the first row whose own `fill` throws. -/
theorem fill_throws_at_row {T : Type} [Inhabited T] (n : Nat) (a other : DynamicArray T (n + 2))
    (e : Error) (a2 : DynamicArray T (n + 2)) (h : fill (n + 1) a other = .error (e, a2))
    (hl : length a = length other) :
    ∃ (k : Nat) (row src row2 : DynamicArray T (n + 1)),
      k < length a ∧
      (a : List (DynamicArray T (n + 1)))[k]? = some row ∧
      (other : List (DynamicArray T (n + 1)))[k]? = some src ∧
      fill n row src = .error (e, row2) ∧
      (∀ (j : Nat) (r t : DynamicArray T (n + 1)), j < k →
        (a : List (DynamicArray T (n + 1)))[j]? = some r →
        (other : List (DynamicArray T (n + 1)))[j]? = some t → fill n r t = .ok t) ∧
      (a2 : List (DynamicArray T (n + 1)))[k]? = some row2 ∧
      (∀ j, j < k →
        (a2 : List (DynamicArray T (n + 1)))[j]? = (other : List (DynamicArray T (n + 1)))[j]?) ∧
      (∀ j, k < j →
        (a2 : List (DynamicArray T (n + 1)))[j]? = (a : List (DynamicArray T (n + 1)))[j]?) := by
  have h0 : ¬ length a = 0 := by
    intro h0
    rw [fill_of_unallocated (n + 1) a other h0] at h
    cases h
  have hf : fill (n + 1) a other = forLoop (fill_row (fill n) other) (length a) 0 a := by
    rw [fill, if_neg h0, if_neg (by simp [hl])]
  rw [hf] at h
  exact forLoop_fill_row_first (fill n) other a hl
    (fun row src r => (fill_outcome n row src).1 r) e a2 h

end Dynamic

/-! ## Failing fill -/

/-- C12 as amended: a `fill` that throws throws `MismatchedLength`, the array
was allocated and keeps its outer length; when the outer lengths differ (the
only way for a one-dimensional array) the array is untouched; when they agree
the exception is the exception of the `fill` of a row `k`, the first row whose
`fill` throws: every row before `k` was filled and holds the argument's row,
row `k` is as its own `fill` left it, the rows after `k` are untouched. -/
theorem fill_failure_state {T : Type} [Inhabited T] (n : Nat)
    (a other : DynamicArray T (n + 2)) (e : Error) (a2 : DynamicArray T (n + 2))
    (h : Dynamic.fill (n + 1) a other = .error (e, a2)) :
    Dynamic.length a2 = Dynamic.length a ∧ 0 < Dynamic.length a ∧
    (∃ l r, e = Error.MismatchedLength l r) ∧
    (Dynamic.length a ≠ Dynamic.length other →
      a2 = a ∧ e = .MismatchedLength (Dynamic.length a) (Dynamic.length other)) ∧
    (Dynamic.length a = Dynamic.length other →
      ∃ (k : Nat) (row src row2 : DynamicArray T (n + 1)),
        k < Dynamic.length a ∧
        (a : List (DynamicArray T (n + 1)))[k]? = some row ∧
        (other : List (DynamicArray T (n + 1)))[k]? = some src ∧
        Dynamic.fill n row src = .error (e, row2) ∧
        (∀ (j : Nat) (r t : DynamicArray T (n + 1)), j < k →
          (a : List (DynamicArray T (n + 1)))[j]? = some r →
          (other : List (DynamicArray T (n + 1)))[j]? = some t →
          Dynamic.fill n r t = .ok t) ∧
        (a2 : List (DynamicArray T (n + 1)))[k]? = some row2 ∧
        (∀ j, j < k →
          (a2 : List (DynamicArray T (n + 1)))[j]? =
            (other : List (DynamicArray T (n + 1)))[j]?) ∧
        (∀ j, k < j →
          (a2 : List (DynamicArray T (n + 1)))[j]? =
            (a : List (DynamicArray T (n + 1)))[j]?)) ∧
    (∀ (v w v2 : DynamicArray T 1) (e1 : Error), Dynamic.fill 0 v w = .error (e1, v2) →
      v2 = v ∧ e1 = .MismatchedLength (Dynamic.length v) (Dynamic.length w) ∧
        0 < Dynamic.length v ∧ Dynamic.length v ≠ Dynamic.length w) := by
  obtain ⟨h1, h2, h3, h4, _⟩ := (Dynamic.fill_outcome (n + 1) a other).2 e a2 h
  refine ⟨h1, h2, h3, h4, fun hl => Dynamic.fill_throws_at_row n a other e a2 h hl, ?_⟩
  intro v w v2 e1 hv
  obtain ⟨_, g2, _, g4, g5⟩ := (Dynamic.fill_outcome 0 v w).2 e1 v2 hv
  have hne : Dynamic.length v ≠ Dynamic.length w := by
    intro heq
    exact absurd (g5 heq).1 (Nat.lt_irrefl 0)
  exact ⟨(g4 hne).1, (g4 hne).2, g2, hne⟩

theorem fill_failure_state_witness :
    Dynamic.fill 1 Scenario.ragged_matrix Scenario.matrix_2x2 =
      .error (.MismatchedLength 1 2, ([[5, 6], [3]] : List (List Int))) ∧
    (Dynamic.length ([[5, 6], [3]] : List (List Int)) = Dynamic.length Scenario.ragged_matrix ∧
      0 < Dynamic.length Scenario.ragged_matrix ∧
      (∃ l r, Error.MismatchedLength 1 2 = Error.MismatchedLength l r) ∧
      (Dynamic.length Scenario.ragged_matrix ≠ Dynamic.length Scenario.matrix_2x2 →
        ([[5, 6], [3]] : List (List Int)) = Scenario.ragged_matrix ∧
          Error.MismatchedLength 1 2 =
            .MismatchedLength (Dynamic.length Scenario.ragged_matrix)
              (Dynamic.length Scenario.matrix_2x2)) ∧
      (Dynamic.length Scenario.ragged_matrix = Dynamic.length Scenario.matrix_2x2 →
        ∃ (k : Nat) (row src row2 : DynamicArray Int 1),
          k < Dynamic.length Scenario.ragged_matrix ∧
          (Scenario.ragged_matrix : List (List Int))[k]? = some row ∧
          (Scenario.matrix_2x2 : List (List Int))[k]? = some src ∧
          Dynamic.fill 0 row src = .error (Error.MismatchedLength 1 2, row2) ∧
          (∀ (j : Nat) (r t : DynamicArray Int 1), j < k →
            (Scenario.ragged_matrix : List (List Int))[j]? = some r →
            (Scenario.matrix_2x2 : List (List Int))[j]? = some t →
            Dynamic.fill 0 r t = .ok t) ∧
          ([[5, 6], [3]] : List (List Int))[k]? = some row2 ∧
          (∀ j, j < k →
            ([[5, 6], [3]] : List (List Int))[j]? = (Scenario.matrix_2x2 : List (List Int))[j]?) ∧
          (∀ j, k < j →
            ([[5, 6], [3]] : List (List Int))[j]? =
              (Scenario.ragged_matrix : List (List Int))[j]?)) ∧
      (∀ (v w v2 : DynamicArray Int 1) (e1 : Error), Dynamic.fill 0 v w = .error (e1, v2) →
        v2 = v ∧ e1 = .MismatchedLength (Dynamic.length v) (Dynamic.length w) ∧
          0 < Dynamic.length v ∧ Dynamic.length v ≠ Dynamic.length w)) :=
  ⟨rfl, fill_failure_state 0 Scenario.ragged_matrix Scenario.matrix_2x2
    (.MismatchedLength 1 2) ([[5, 6], [3]] : List (List Int)) rfl⟩

/-! ## Copies compared with their source -/

/-- C5 refuted: a default-constructed `DynamicVector<double>` filled from
`{1.0, NaN}` becomes `{1.0, NaN}`, and `all_equal` of the two returns `false`
because `NaN != NaN`. -/
theorem fill_unallocated_copies_counterexample :
    Dynamic.length ([] : DynamicArray Scenario.Double 1) = 0 ∧
    ∃ a2, Dynamic.fill 0 ([] : DynamicArray Scenario.Double 1) Scenario.vector_with_nan =
        .ok a2 ∧
      Dynamic.all_equal Scenario.double_ne 0 a2 Scenario.vector_with_nan = .ok false :=
  ⟨rfl, Scenario.vector_with_nan, rfl, rfl⟩

/-- C5 as amended: `fill` on an unallocated dynamic array succeeds for every
argument of the same dimension count; afterwards the array has the argument's
shape at every axis and the argument's elements, and `all_equal` with the
argument returns, with `true` exactly when `x != x` is false for every leaf
element `x` of the argument. -/
theorem fill_unallocated_copies {T : Type} [Inhabited T] (ne : T → T → Bool) (NumDims : Nat)
    (a other : DynamicArray T (NumDims + 1)) (ha : Dynamic.length a = 0) :
    ∃ a2, Dynamic.fill NumDims a other = .ok a2 ∧
      Dynamic.length a2 = Dynamic.length other ∧
      Dynamic.same_shape NumDims a2 other = true ∧
      a2 = other ∧
      ∃ r, Dynamic.all_equal ne NumDims a2 other = .ok r ∧
        (r = true ↔ ∀ (c : Dynamic.Coords NumDims) (v : T),
          Dynamic.at_coords NumDims other c = .ok v → ne v v = false) :=
  ⟨other, Dynamic.fill_of_unallocated NumDims a other ha, rfl,
    Dynamic.same_shape_refl NumDims other, rfl,
    Dynamic.all_equal_self_leaves ne NumDims other⟩

theorem fill_unallocated_copies_witness :
    Dynamic.length Scenario.matrix_unallocated = 0 ∧
    ∃ a2, Dynamic.fill 1 Scenario.matrix_unallocated Scenario.matrix_2x3 = .ok a2 ∧
      Dynamic.length a2 = Dynamic.length Scenario.matrix_2x3 ∧
      Dynamic.same_shape 1 a2 Scenario.matrix_2x3 = true ∧
      a2 = Scenario.matrix_2x3 ∧
      ∃ r, Dynamic.all_equal Scenario.int_ne 1 a2 Scenario.matrix_2x3 = .ok r ∧
        (r = true ↔ ∀ (c : Dynamic.Coords 1) (v : Int),
          Dynamic.at_coords 1 Scenario.matrix_2x3 c = .ok v → Scenario.int_ne v v = false) :=
  ⟨rfl,
    fill_unallocated_copies Scenario.int_ne 1 Scenario.matrix_unallocated Scenario.matrix_2x3
      rfl⟩

/-- C9 refuted: the gather of `StaticVector<double,2>{1.0, NaN}` with the
identity index vector `{0, 1}` succeeds, and `all_equal` of the result and
the vector returns `false` because `NaN != NaN`. -/
theorem gather_round_trip_counterexample :
    ∃ r, Static.gather 2 [] 2 Scenario.static_vector_with_nan
        ⟨identity_indices 2, identity_indices_length 2⟩ = .ok r ∧
      Static.all_equal Scenario.double_ne 2 [] r Scenario.static_vector_with_nan = .ok false :=
  ⟨Scenario.static_vector_with_nan, rfl, rfl⟩

/-- C9 as amended: the gather of an array (static or dynamic, any dimension
count) with the identity index vector `[0, 1, ..., L-1]` succeeds and gives an
array with the shape and the elements of the array; `all_equal` of the result
and the array returns, with `true` exactly when `x != x` is false for every
leaf element `x` of the array. -/
theorem gather_round_trip {T : Type} [Inhabited T] (ne : T → T → Bool) :
    (∀ (L : Nat) (OtherDim : List Nat) (a : StaticArray T (L :: OtherDim)),
      ∃ r, Static.gather L OtherDim L a ⟨identity_indices L, identity_indices_length L⟩ = .ok r ∧
        r = a ∧
        ∃ b, Static.all_equal ne L OtherDim r a = .ok b ∧
          (b = true ↔ ∀ (c : Static.Coords OtherDim) (v : T),
            Static.at_coords L OtherDim a c = .ok v → ne v v = false)) ∧
    (∀ (NumDims : Nat) (a : DynamicArray T (NumDims + 1)),
      ∃ r, Dynamic.gather NumDims a (identity_indices (Dynamic.length a)) = .ok r ∧
        Dynamic.same_shape NumDims r a = true ∧ r = a ∧
        ∃ b, Dynamic.all_equal ne NumDims r a = .ok b ∧
          (b = true ↔ ∀ (c : Dynamic.Coords NumDims) (v : T),
            Dynamic.at_coords NumDims a c = .ok v → ne v v = false)) := by
  constructor
  · intro L OtherDim a
    exact ⟨a, Static.gather_identity_static OtherDim L a, rfl,
      Static.all_equal_static_self_leaves ne OtherDim L a⟩
  · intro NumDims a
    exact ⟨a, Dynamic.gather_identity_dynamic NumDims a, Dynamic.same_shape_refl NumDims a, rfl,
      Dynamic.all_equal_self_leaves ne NumDims a⟩

/-- C15 refuted: the copy of `DynamicVector<double>{1.0, NaN}` is
`{1.0, NaN}`, and `all_equal` of the vector and its copy returns `false`
because `NaN != NaN`. -/
theorem copy_is_deep_copy_counterexample :
    ∃ a_copy, Dynamic.copy 0 Scenario.vector_with_nan = .ok a_copy ∧
      Dynamic.all_equal Scenario.double_ne 0 Scenario.vector_with_nan a_copy = .ok false :=
  ⟨Scenario.vector_with_nan, rfl, rfl⟩

/-- C15 as amended: the copy-constructed array (dynamic of any shape,
unallocated included, or static) has the shape and the elements of the
original; `all_equal` of the original and the copy returns, with `true`
exactly when `x != x` is false for every leaf element `x` of the original. -/
theorem copy_is_deep_copy {T : Type} [Inhabited T] (ne : T → T → Bool) :
    (∀ (NumDims : Nat) (a : DynamicArray T (NumDims + 1)),
      ∃ a_copy, Dynamic.copy NumDims a = .ok a_copy ∧
        Dynamic.same_shape NumDims a a_copy = true ∧ a_copy = a ∧
        ∃ b, Dynamic.all_equal ne NumDims a a_copy = .ok b ∧
          (b = true ↔ ∀ (c : Dynamic.Coords NumDims) (v : T),
            Dynamic.at_coords NumDims a c = .ok v → ne v v = false)) ∧
    (∀ (L : Nat) (OtherDim : List Nat) (a : StaticArray T (L :: OtherDim)),
      ∃ a_copy, Static.copy L OtherDim a = .ok a_copy ∧ a_copy = a ∧
        ∃ b, Static.all_equal ne L OtherDim a a_copy = .ok b ∧
          (b = true ↔ ∀ (c : Static.Coords OtherDim) (v : T),
            Static.at_coords L OtherDim a c = .ok v → ne v v = false)) := by
  constructor
  · intro NumDims a
    exact ⟨a, Dynamic.copy_ok NumDims a, Dynamic.same_shape_refl NumDims a, rfl,
      Dynamic.all_equal_self_leaves ne NumDims a⟩
  · intro L OtherDim a
    exact ⟨a, Static.assign_ok OtherDim L _ a, rfl,
      Static.all_equal_static_self_leaves ne OtherDim L a⟩

end math
